import Mathlib

/-!
A shallow embedding of the FlowDoc graph builder (`src/graph/graphBuilder.ts`)
and the parts of the data model it consumes (`src/types.ts`).

Modelling conventions:
* JavaScript `Map` (insertion-ordered) is modelled as an association list
  (`JMap`) with first-match lookup; `Map.set` updates in place, keeping the
  key's position, and appends new keys at the end, exactly as JS does.
* JS string falsiness (`!node.dependency` is true for both `null` and `""`)
  is modelled by `depAbsent`.
* `String.prototype.localeCompare` is modelled as code-point lexicographic
  comparison (`Ord String`); on the ASCII identifiers exercised here the two
  comparators agree.
* `parseInt(digits, 10)` on an all-digit string is modelled as the exact
  decimal value (`digitsToNat`); IEEE rounding beyond 2^53 is not modelled.
* In-place mutation of node records / the roots array / children arrays is
  modelled by explicit state threading; the part of the caller's record array
  visible after the build (aliasing of first-occurrence records with the
  node map) is reconstructed by `buildGraphRecords`.
* The recursive DFS of cycle detection is modelled with explicit fuel; the
  builder returns `Option TopicGraph`, where `none` is the (never reached in
  practice) fuel-exhaustion artifact of the model.
* The JS `in` operator on the plain `repos` object (built as an object
  literal by the config loader) walks the prototype chain, so it also finds
  the properties of `Object.prototype`; `jsInObject` models this.
-/

/-- JS string falsiness for `string | null` fields: `null` and `""` are falsy. -/
def depAbsent : Option String → Bool
  | none => true
  | some s => s == ""

/-- Association list with string keys, modelling an insertion-ordered JS `Map`. -/
abbrev JMap (α : Type) := List (String × α)

/-- `Map.get`: value at the first (unique) entry with the key. -/
def alGet {α : Type} (m : JMap α) (k : String) : Option α :=
  (m.find? (fun p => p.1 == k)).map (·.2)

/-- `Map.has`. -/
def alHas {α : Type} (m : JMap α) (k : String) : Bool :=
  m.any (fun p => p.1 == k)

/-- `Map.set`: replace in place if the key exists (keeping its position),
otherwise append at the end. -/
def alSet {α : Type} (m : JMap α) (k : String) (v : α) : JMap α :=
  if alHas m k then m.map (fun p => if p.1 == k then (k, v) else p)
  else m ++ [(k, v)]

/-- The comparator `(a, b) => a.localeCompare(b)`, modelled as code-point
lexicographic comparison. -/
def jsCompare (a b : String) : Ordering := compare a b

/-- Insert into a list sorted ascending by `jsCompare`. -/
def orderedInsert (x : String) : List String → List String
  | [] => [x]
  | y :: ys => if jsCompare x y = Ordering.gt then y :: orderedInsert x ys else x :: y :: ys

/-- `arr.sort((a, b) => a.localeCompare(b))`. -/
def jsSortStrings (l : List String) : List String :=
  l.foldr orderedInsert []

/-! ## Data model (`src/types.ts`) -/

/-- `Link.parsed` payload. -/
structure LinkParsed where
  symbol : Option String := none
  filePath : Option String := none
  line : Option Nat := none
  url : Option String := none
deriving Repr, DecidableEq

/-- A link embedded in a FlowDoc node. -/
structure Link where
  label : Option String := none
  target : String
  type : String
  parsed : LinkParsed
deriving Repr, DecidableEq

/-- Core entity: a documentation node extracted from `@flowdoc-*` comments. -/
structure FlowNode where
  topic : String
  id : String
  step : String
  dependency : Option String
  dependencyNote : Option String
  children : Option (List String)
  links : List Link
  sourceFile : String
  sourceLine : Nat
deriving Repr, DecidableEq

/-- Warning generated during graph construction; `type` is one of
`"duplicate-id" | "missing-dependency" | "cycle-detected"`. -/
structure GraphWarning where
  type : String
  nodeId : String
  message : String
  sourceFile : Option String
  sourceLine : Option Nat
deriving Repr, DecidableEq

/-- `GraphError.partialData`. -/
structure PartialData where
  topic : Option String := none
  id : Option String := none
  step : Option String := none
deriving Repr, DecidableEq

/-- Error generated during parsing for missing required fields. -/
structure GraphError where
  type : String
  message : String
  sourceFile : String
  sourceLine : Nat
  partialData : Option PartialData
deriving Repr, DecidableEq

/-- External repository reference configuration. -/
structure ExternalRepoRef where
  path : String
deriving Repr, DecidableEq

/-- Project configuration from `flowdoc.config.yaml/json`. -/
structure FlowDocConfig where
  version : Nat
  repos : Option (JMap ExternalRepoRef)
deriving Repr, DecidableEq

/-- Graph structure for a specific topic. -/
structure TopicGraph where
  topic : String
  nodesById : JMap FlowNode
  childrenByDependencyId : JMap (List String)
  roots : List String
  warnings : List GraphWarning
  errors : List GraphError
deriving Repr, DecidableEq

/-! ## Cross-repo reference parsing (`parseCrossRepoDependency`) -/

/-- Result of `parseCrossRepoDependency`. -/
structure CrossRepoParse where
  isExternal : Bool
  repoName : Option String := none
  nodeId : Option String := none
deriving Repr, DecidableEq

/-- `dependency.indexOf("@")` over the code points, `none` when absent. -/
def indexOfAt (cs : List Char) : Option Nat :=
  cs.findIdx? (· = '@')

/-- Check if a dependency is a cross-repo reference (format: `repo-name@node-id`):
the first `@` must sit at a position `> 0` and `< length - 1`. -/
def parseCrossRepoDependency (dependency : String) : CrossRepoParse :=
  let cs := dependency.data
  match indexOfAt cs with
  | none => { isExternal := false }
  | some atIndex =>
    if 0 < atIndex ∧ atIndex + 1 < cs.length then
      { isExternal := true
        repoName := some (String.mk (cs.take atIndex))
        nodeId := some (String.mk (cs.drop (atIndex + 1))) }
    else
      { isExternal := false }

/-! ## Numeric id parsing (`NUMERIC_SUFFIX_PATTERN`, `parseNumericId`) -/

/-- Characters matched by `.` in a JS regex without the `s` flag
(everything but the four line terminators). -/
def jsDotMatch (c : Char) : Bool :=
  c ≠ '\n' && c ≠ '\r' && c ≠ '\u2028' && c ≠ '\u2029'

/-- ASCII decimal digit, the class `\d`. -/
def jsDigit (c : Char) : Bool :=
  '0' ≤ c && c ≤ '9'

/-- Exact decimal value of an all-digit run (`parseInt(run, 10)`). -/
def digitsToNat (cs : List Char) : Nat :=
  cs.foldl (fun a c => a * 10 + (c.toNat - '0'.toNat)) 0

/-- One backtracking search of `/^(.+?)(\d+)$/`: the lazy group tries the
shortest viable split first, so the split index grows one character at a time.
A split `(pre, rest)` succeeds when `pre` is non-empty and all `.`-matchable
and `rest` is a non-empty all-digit suffix. -/
def regexLazySearch : List Char → List Char → Option (List Char × List Char)
  | _, [] => none
  | pre, c :: cs =>
    if !pre.isEmpty && (c :: cs).all jsDigit && pre.all jsDotMatch then
      some (pre, c :: cs)
    else
      regexLazySearch (pre ++ [c]) cs

/-- Result of `parseNumericId`; `pfx` models the source field named after the
leading capture group of `NUMERIC_SUFFIX_PATTERN` (everything before the
trailing digit run). -/
structure NumericId where
  pfx : String
  numericValue : Nat
  originalSuffix : String
deriving Repr, DecidableEq

/-- Parse numeric suffix from an ID via `NUMERIC_SUFFIX_PATTERN`. -/
def parseNumericId (id : String) : Option NumericId :=
  match regexLazySearch [] id.data with
  | none => none
  | some (pre, digs) =>
    some { pfx := String.mk pre, numericValue := digitsToNat digs
           originalSuffix := String.mk digs }

example : parseNumericId "REG-001" =
    some { pfx := "REG-", numericValue := 1, originalSuffix := "001" } := by decide
example : parseNumericId "S-2" =
    some { pfx := "S-", numericValue := 2, originalSuffix := "2" } := by decide
example : parseNumericId "1" = none := by decide
example : parseNumericId "123" =
    some { pfx := "1", numericValue := 23, originalSuffix := "23" } := by decide
example : parseNumericId "A" = none := by decide

/-! ## Graph builder (`buildGraph`), step by step -/

/-- The property names every plain object inherits from `Object.prototype`,
all of which the JS `in` operator reports as present. -/
def objectPrototypeKeys : List String :=
  ["constructor", "hasOwnProperty", "isPrototypeOf", "propertyIsEnumerable",
   "toLocaleString", "toString", "valueOf", "__defineGetter__",
   "__defineSetter__", "__lookupGetter__", "__lookupSetter__", "__proto__"]

/-- `key in obj` for a plain object: an own key, or a property inherited
from `Object.prototype` (the `repos` object is an object literal built by
the config loader, so its prototype is `Object.prototype`). -/
def jsInObject {α : Type} (key : String) (obj : JMap α) : Bool :=
  alHas obj key || objectPrototypeKeys.contains key

/-- Truth of `crossRepo.isExternal && config?.repos && crossRepo.repoName &&
crossRepo.repoName in config.repos` (line 162 / 195 of the builder). -/
def isValidCrossRepo (config : Option FlowDocConfig) (cr : CrossRepoParse) : Bool :=
  cr.isExternal &&
    (match config with
     | none => false
     | some c =>
       match c.repos with
       | none => false
       | some repos =>
         match cr.repoName with
         | none => false
         | some r => r != "" && jsInObject r repos)

/-- State threaded through phase 2 of `buildGraph` (children map, roots,
warnings accumulated so far). -/
structure BuildState where
  childMap : JMap (List String)
  roots : List String
  warnings : List GraphWarning
deriving Repr, DecidableEq

/-- The `missing-dependency` warning of the dependency-resolution step. -/
def missingDependencyWarning (id dep : String) (node : FlowNode) : GraphWarning :=
  { type := "missing-dependency", nodeId := id
    message := "Dependency \"" ++ dep ++ "\" not found. Node treated as root."
    sourceFile := some node.sourceFile, sourceLine := some node.sourceLine }

/-- Step 2 (lines 155–179): classify one node by its `dependency` field —
no dependency ⇒ root; locally resolvable ⇒ child edge; otherwise root, with a
`missing-dependency` warning unless it is a recognized cross-repo reference. -/
def resolveDependency (nodesById : JMap FlowNode) (config : Option FlowDocConfig)
    (s : BuildState) (id : String) (node : FlowNode) : BuildState :=
  if depAbsent node.dependency then
    { s with roots := s.roots ++ [id] }
  else
    let dep := node.dependency.getD ""
    if alHas nodesById dep then
      let children := (alGet s.childMap dep).getD []
      { s with childMap := alSet s.childMap dep (children ++ [id]) }
    else
      let crossRepo := parseCrossRepoDependency dep
      let valid := isValidCrossRepo config crossRepo
      let s :=
        if valid then s
        else { s with warnings := s.warnings ++ [missingDependencyWarning id dep node] }
      { s with roots := s.roots ++ [id] }

/-- One iteration of the explicit-children loop (lines 186–223): skip
references already present, add cross-repo references unconditionally (warning
when the repo is unknown), add local references only when they exist. -/
def childRefStep (nodesById : JMap FlowNode) (config : Option FlowDocConfig)
    (id : String) (node : FlowNode) (acc : List String × List GraphWarning)
    (childRef : String) : List String × List GraphWarning :=
  let existing := acc.1
  let ws := acc.2
  if existing.contains childRef then
    (existing, ws)
  else
    let crossRepo := parseCrossRepoDependency childRef
    if crossRepo.isExternal then
      let valid :=
        match config with
        | none => false
        | some c =>
          match c.repos with
          | none => false
          | some repos =>
            match crossRepo.repoName with
            | none => false
            | some r => r != "" && jsInObject r repos
      let ws :=
        if valid then ws
        else ws ++
          [{ type := "missing-dependency", nodeId := id
             message := "Child reference \"" ++ childRef ++
               "\" points to unknown repository \"" ++ crossRepo.repoName.getD "" ++
               "\". Add it to flowdoc.config.yaml under \"repos\"."
             sourceFile := some node.sourceFile, sourceLine := some node.sourceLine }]
      (existing ++ [childRef], ws)
    else
      if alHas nodesById childRef then
        (existing ++ [childRef], ws)
      else
        (existing, ws ++
          [{ type := "missing-dependency", nodeId := id
             message := "Child reference \"" ++ childRef ++ "\" not found in topic."
             sourceFile := some node.sourceFile, sourceLine := some node.sourceLine }])

/-- Step 2b (lines 182–228): process a node's explicit `children` declaration. -/
def resolveChildrenDecls (nodesById : JMap FlowNode) (config : Option FlowDocConfig)
    (s : BuildState) (id : String) (node : FlowNode) : BuildState :=
  match node.children with
  | none => s
  | some refs =>
    if refs.length == 0 then s
    else
      let existing := (alGet s.childMap id).getD []
      let folded := refs.foldl (childRefStep nodesById config id node) (existing, s.warnings)
      let s1 := { s with warnings := folded.2 }
      if folded.1.length > 0 then
        { s1 with childMap := alSet s1.childMap id folded.1 }
      else s1

/-- Body of the phase-2 loop for one node: dependency classification, then
explicit children. -/
def resolveNode (nodesById : JMap FlowNode) (config : Option FlowDocConfig)
    (s : BuildState) (entry : String × FlowNode) : BuildState :=
  let s := resolveDependency nodesById config s entry.1 entry.2
  resolveChildrenDecls nodesById config s entry.1 entry.2

/-- One phase-1 iteration (lines 141–151): keep the first record of each id,
emit a `duplicate-id` warning for every later one. -/
def dedupeStep (acc : JMap FlowNode × List GraphWarning) (node : FlowNode) :
    JMap FlowNode × List GraphWarning :=
  if alHas acc.1 node.id then
    (acc.1, acc.2 ++
      [{ type := "duplicate-id", nodeId := node.id
         message := "Duplicate ID \"" ++ node.id ++ "\" found. Keeping first occurrence."
         sourceFile := some node.sourceFile, sourceLine := some node.sourceLine }])
  else
    (acc.1 ++ [(node.id, node)], acc.2)

/-- Phase 1 (lines 140–152): populate `nodesById`, first-wins on duplicates,
emitting a `duplicate-id` warning for each discarded record. -/
def dedupeNodes (filtered : List FlowNode) : JMap FlowNode × List GraphWarning :=
  filtered.foldl dedupeStep ([], [])

/-! ## Numeric auto-linker (`applyAutoNumericLinks`) -/

/-- The mutable state the auto-linker operates on. -/
structure LinkState where
  nodesById : JMap FlowNode
  childMap : JMap (List String)
  roots : List String
deriving Repr, DecidableEq

/-- The key string `` `${prefix}:${numericValue}` `` of the numeric lookup. -/
def numericKey (pfx : String) (v : Nat) : String :=
  pfx ++ ":" ++ toString v

/-- One entry of the numeric-lookup construction (lines 59–67): skip ids
without numeric suffix, first one wins on key collisions. -/
def numericLookupStep (acc : JMap String) (entry : String × FlowNode) : JMap String :=
  match parseNumericId entry.1 with
  | none => acc
  | some p =>
    let key := numericKey p.pfx p.numericValue
    if alHas acc key then acc else acc ++ [(key, entry.1)]

/-- Lines 58–68: lookup from `prefix:numericValue` to node id, first one wins. -/
def numericLookupOf (nodesById : JMap FlowNode) : JMap String :=
  nodesById.foldl numericLookupStep []

/-- Lines 79–101: auto-assign a dependency on the `value−1` node if the node
has none, removing the node from the roots and adding it as a (sorted) child
of the predecessor. -/
def autoLinkBackfill (lookup : JMap String) (s : LinkState) (id : String)
    (node : FlowNode) (p : NumericId) : LinkState :=
  if depAbsent node.dependency ∧ p.numericValue > 1 then
    match alGet lookup (numericKey p.pfx (p.numericValue - 1)) with
    | none => s
    | some prevId =>
      if prevId ≠ id then
        let s := { s with
          nodesById := alSet s.nodesById id { node with dependency := some prevId }
          roots := s.roots.erase id }
        let existing := (alGet s.childMap prevId).getD []
        if existing.contains id then s
        else { s with childMap := alSet s.childMap prevId (jsSortStrings (existing ++ [id])) }
      else s
  else s

/-- Lines 103–115: auto-add the `value+1` node as a child if it exists, is not
already a child, and currently has no dependency of its own. -/
def autoLinkSuccessor (lookup : JMap String) (s : LinkState) (id : String)
    (p : NumericId) : LinkState :=
  let existing := (alGet s.childMap id).getD []
  match alGet lookup (numericKey p.pfx (p.numericValue + 1)) with
  | none => s
  | some nextId =>
    if nextId ≠ id ∧ ¬ existing.contains nextId then
      match alGet s.nodesById nextId with
      | none => s
      | some nextNode =>
        if depAbsent nextNode.dependency then
          { s with childMap := alSet s.childMap id (jsSortStrings (existing ++ [nextId])) }
        else s
    else s

/-- Body of the auto-linker loop (lines 71–116) for one node id; the node is
re-read from the current state, mirroring the live JS object references. -/
def autoLinkStep (lookup : JMap String) (s : LinkState) (id : String) : LinkState :=
  match alGet s.nodesById id with
  | none => s
  | some node =>
    match parseNumericId id with
    | none => s
    | some p =>
      let s := autoLinkBackfill lookup s id node p
      autoLinkSuccessor lookup s id p

/-- `applyAutoNumericLinks` (lines 56–117): build the numeric lookup, then
process every node in map order. -/
def applyAutoNumericLinks (s : LinkState) : LinkState :=
  let lookup := numericLookupOf s.nodesById
  (s.nodesById.map (·.1)).foldl (autoLinkStep lookup) s

/-! ## Cycle detection (lines 243–282) -/

/-- The mutable state of the DFS: visited set, active recursion stack,
already-reported cycle nodes, and the warning list being extended. -/
structure DfsState where
  visited : List String
  recursionStack : List String
  cycleNodes : List String
  warnings : List GraphWarning
deriving Repr, DecidableEq

/-- `detectCycle(nodeId)` with explicit fuel (`none` = fuel exhausted, a model
artifact only; one unit of fuel is spent per nesting level). Returns the
updated state and the boolean result. The `for (const childId of children)`
loop is the inner fold: recurse into each child and, when the child closes a
cycle and has not been reported yet, record it and push a `cycle-detected`
warning. -/
def detectCycleGo (childMap : JMap (List String)) (nodesById : JMap FlowNode) :
    Nat → String → DfsState → Option (DfsState × Bool)
  | 0, _, _ => none
  | Nat.succ fuel, nodeId, s =>
    if s.recursionStack.contains nodeId then some (s, true)
    else if s.visited.contains nodeId then some (s, false)
    else
      let s1 := { s with visited := s.visited ++ [nodeId]
                         recursionStack := s.recursionStack ++ [nodeId] }
      let children := (alGet childMap nodeId).getD []
      let looped := children.foldl
        (fun (acc : Option DfsState) childId =>
          match acc with
          | none => none
          | some st =>
            match detectCycleGo childMap nodesById fuel childId st with
            | none => none
            | some (st1, cyc) =>
              if cyc ∧ ¬ st1.cycleNodes.contains childId then
                some { st1 with
                  cycleNodes := st1.cycleNodes ++ [childId]
                  warnings := st1.warnings ++
                    [{ type := "cycle-detected", nodeId := childId
                       message := "Cycle detected involving node \"" ++ childId ++ "\""
                       sourceFile := (alGet nodesById childId).map (·.sourceFile)
                       sourceLine := (alGet nodesById childId).map (·.sourceLine) }]
                }
              else some st1)
        (some s1)
      match looped with
      | none => none
      | some s2 =>
        some ({ s2 with recursionStack := s2.recursionStack.erase nodeId }, false)

/-- Fuel that certainly covers the DFS: every productive call permanently
visits a fresh id drawn from the roots or some children list. -/
def dfsFuel (childMap : JMap (List String)) (roots : List String) : Nat :=
  roots.length + childMap.foldl (fun a e => a + e.2.length) 0 + 2

/-- Lines 280–282: run `detectCycle` from every root, threading the DFS state. -/
def runCycleDetection (childMap : JMap (List String)) (nodesById : JMap FlowNode)
    (warnings : List GraphWarning) (roots : List String) : Option (List GraphWarning) :=
  let fuel := dfsFuel childMap roots
  let init : DfsState := { visited := [], recursionStack := [], cycleNodes := []
                           warnings := warnings }
  (roots.foldl
    (fun acc rootId =>
      match acc with
      | none => none
      | some s =>
        match detectCycleGo childMap nodesById fuel rootId s with
        | none => none
        | some (s', _) => some s')
    (some init)).map (·.warnings)

/-! ## `buildGraph` -/

/-- Phases 1–5 of `buildGraph` (everything except cycle detection and error
filtering): dedupe, resolve dependency and explicit-children edges, sort
roots and children lists, apply numeric auto-linking. The result carries the
final node map, children map, roots and the warnings so far. -/
def buildGraphCore (nodes : List FlowNode) (topic : String)
    (config : Option FlowDocConfig) : LinkState × List GraphWarning :=
  let filtered := nodes.filter (fun n => n.topic == topic)
  let deduped := dedupeNodes filtered
  let nodesById := deduped.1
  let s2 := nodesById.foldl (resolveNode nodesById config)
    { childMap := [], roots := [], warnings := deduped.2 }
  let roots3 := jsSortStrings s2.roots
  let childMap4 := s2.childMap.map (fun e => (e.1, jsSortStrings e.2))
  let s5 := applyAutoNumericLinks
    { nodesById := nodesById, childMap := childMap4, roots := roots3 }
  (s5, s2.warnings)

/-- `buildGraph(nodes, topic, config?, errors?)` (lines 132–295). `none`
models only fuel exhaustion of the DFS in the embedding; the source function
always returns. -/
def buildGraph (nodes : List FlowNode) (topic : String)
    (config : Option FlowDocConfig) (errors : List GraphError) : Option TopicGraph :=
  let s5 := (buildGraphCore nodes topic config).1
  let warnings := (buildGraphCore nodes topic config).2
  match runCycleDetection s5.childMap s5.nodesById warnings s5.roots with
  | none => none
  | some finalWarnings =>
    let topicErrors := errors.filter
      (fun e =>
        match e.partialData with
        | none => false
        | some pd => pd.topic == some topic)
    some { topic := topic
           nodesById := s5.nodesById
           childrenByDependencyId := s5.childMap
           roots := s5.roots
           warnings := finalWarnings
           errors := topicErrors }

/-- Get children IDs for a node (lines 300–302). -/
def getChildren (graph : TopicGraph) (nodeId : String) : List String :=
  (alGet graph.childrenByDependencyId nodeId).getD []

/-- Check if a node has children (lines 307–309). -/
def hasChildren (graph : TopicGraph) (nodeId : String) : Bool :=
  (getChildren graph nodeId).length > 0

/-- The final node map alone (used to phrase frame conditions). -/
def buildGraphNodes (nodes : List FlowNode) (topic : String)
    (config : Option FlowDocConfig) : JMap FlowNode :=
  (buildGraphCore nodes topic config).1.nodesById

/-- Replace each record that is the first of its id within the topic by the
object held in the final node map, tracking the ids already seen. -/
def recordsAfter (finalMap : JMap FlowNode) (topic : String) :
    List FlowNode → List String → List FlowNode
  | [], _ => []
  | r :: rest, seen =>
    if r.topic == topic ∧ ¬ seen.contains r.id then
      ((alGet finalMap r.id).getD r) :: recordsAfter finalMap topic rest (seen ++ [r.id])
    else
      r :: recordsAfter finalMap topic rest seen

/-- The caller's record array as observable after `buildGraph` returns: the
first record of each id in the topic is the very object stored in the node
map (so it carries any dependency backfilled by auto-linking); every other
record is untouched. -/
def buildGraphRecords (nodes : List FlowNode) (topic : String)
    (config : Option FlowDocConfig) : List FlowNode :=
  recordsAfter (buildGraphNodes nodes topic config) topic nodes []

/-! ## Cycle membership (used to state cycle-related claims) -/

/-- One-step successors along the children map. -/
def childSucc (g : TopicGraph) (x : String) : List String :=
  getChildren g x

/-- Fueled closure of `childSucc` starting from `acc`. -/
def reachClosure (g : TopicGraph) : Nat → List String → List String
  | 0, acc => acc
  | Nat.succ f, acc =>
    let nxt := (acc.flatMap (childSucc g)).filter (fun y => ¬ acc.contains y)
    if nxt.isEmpty then acc else reachClosure g f (acc ++ nxt)

/-- Ample fuel: the closure can only ever contain children-map keys and
children-list entries beyond its seed. -/
def cycleFuel (g : TopicGraph) : Nat :=
  g.childrenByDependencyId.foldl (fun a e => a + 1 + e.2.length) 1

/-- A node is part of a cycle when it is reachable from itself in at least
one step along children edges. -/
def inSomeCycle (g : TopicGraph) (x : String) : Bool :=
  (reachClosure g (cycleFuel g) (childSucc g x)).contains x

/-! ## Concrete scenario inputs -/

/-- A record of the build input with the given id, dependency and children
(topic `"T"`, trivial step text and source location). -/
def mkNode (id : String) (dep : Option String) (kids : Option (List String)) : FlowNode :=
  { topic := "T", id := id, step := "step " ++ id, dependency := dep
    dependencyNote := none, children := kids, links := []
    sourceFile := "a.ts", sourceLine := 1 }

/-- Numeric chain scenario: `"S-001"`, `"S-2"`, `"S-03"`, no explicit edges. -/
def chainNodes : List FlowNode :=
  [mkNode "S-001" none none, mkNode "S-2" none none, mkNode "S-03" none none]

/-- Same chain, but `"S-03"` explicitly declares `dependency = "S-001"`. -/
def chainNodesExplicit : List FlowNode :=
  [mkNode "S-001" none none, mkNode "S-2" none none, mkNode "S-03" (some "S-001") none]

/-- Explicit-children loop: `A` declares child `B`, `B` declares child `A`. -/
def loopNodes : List FlowNode :=
  [mkNode "A" none (some ["B"]), mkNode "B" none (some ["A"])]

/-- Mutual dependencies: `A` depends on `B` and `B` on `A`; no node is a root. -/
def mutualDepNodes : List FlowNode :=
  [mkNode "A" (some "B") none, mkNode "B" (some "A") none]

/-- `A` explicitly declares child `B` while `B` declares `dependency = "A"`. -/
def dupEdgeNodes : List FlowNode :=
  [mkNode "A" none (some ["B"]), mkNode "B" (some "A") none]

/-- `S-1` explicitly declares child `S-2`; `S-2` has no dependency, so
auto-linking backfills `dependency = "S-1"` onto the `S-2` record. -/
def backfillNodes : List FlowNode :=
  [mkNode "S-1" none (some ["S-2"]), mkNode "S-2" none none]

/-- `P` declares child `R`; `R` has no dependency. -/
def rootChildNodes : List FlowNode :=
  [mkNode "P" none (some ["R"]), mkNode "R" none none]

/-- A config that recognizes the external repository name `"other"`. -/
def otherRepoConfig : FlowDocConfig :=
  { version := 1, repos := some [("other", { path := "/elsewhere" })] }

/-- `X` has a recognized cross-repo dependency but also a dangling child. -/
def crossDepGhostChildNodes : List FlowNode :=
  [mkNode "X" (some "other@NODE-1") (some ["GHOST"])]

/-- `S-2` carries the empty string — a non-null but falsy dependency. -/
def emptyDepNodes : List FlowNode :=
  [mkNode "S-1" none none, mkNode "S-2" (some "") none]

example : (buildGraph chainNodes "T" none []).map
    (fun g => (g.roots, getChildren g "S-001", getChildren g "S-2")) =
    some (["S-001"], ["S-2"], ["S-03"]) := by decide

/-- The numeric-identity rule exactly as the specification words it: prefix is
the longest non-digit-terminated leading substring (possibly empty) and the
digits are the whole trailing run, whose integer parse is the value. -/
def claimedNumericId (id : String) : Option (String × Nat) :=
  let cs := id.data
  let t := (cs.reverse.takeWhile jsDigit).length
  if t = 0 then none
  else some (String.mk (cs.take (cs.length - t)), digitsToNat (cs.drop (cs.length - t)))

/-! ## Claim theorems: concrete scenarios -/

/-- C4: building one topic from exactly the records `"S-001"`, `"S-2"`,
`"S-03"` (same topic, no dependencies, no children declared) yields a graph
in which `"S-001"` is the only root, `getChildren` of `"S-001"` contains
`"S-2"`, and `getChildren` of `"S-2"` contains `"S-03"`. -/
theorem buildGraph_numeric_chain :
    (buildGraph chainNodes "T" none []).map
      (fun g => (g.roots, getChildren g "S-001", getChildren g "S-2")) =
    some (["S-001"], ["S-2"], ["S-03"]) := by decide

/-- C9: two nodes whose explicit `children` declarations form a loop
(`A` declares child `B`, `B` declares child `A`) produce a returned graph
(`some`, i.e. the build terminates without throwing), exactly one
`cycle-detected` warning, and a children map that still carries both edges of
the loop — no edge is removed on account of the cycle. -/
theorem explicit_cycle_detected_and_preserved :
    (buildGraph loopNodes "T" none []).map
      (fun g => (g.childrenByDependencyId,
        (g.warnings.filter (fun w => w.type == "cycle-detected")).length)) =
    some ([("A", ["B"]), ("B", ["A"])], 1) := by decide

/-- C10: two nodes whose `dependency` fields reference each other leave the
root list empty, so the depth-first cycle detection (launched only from
roots) reports nothing: the returned graph has no `cycle-detected` warning
even though `A` genuinely lies on a children-edge cycle. -/
theorem unreachable_cycle_unreported :
    (buildGraph mutualDepNodes "T" none []).map
      (fun g => (g.roots,
        (g.warnings.filter (fun w => w.type == "cycle-detected")).length,
        inSomeCycle g "A")) =
    some ([], 0, true) := by decide

/-- C1: `buildGraph` is not idempotent on an unchanged input list. On
`backfillNodes` the first call backfills `dependency = "S-1"` onto the
`"S-2"` record and yields children list `["S-2"]` under `"S-1"`; the second
call on the same (internally mutated) records resolves that dependency as an
explicit edge and pushes `"S-2"` a second time next to the copy inserted by
the explicit `children` declaration, yielding `["S-2", "S-2"]`. Node map ids
and roots agree, the children lists do not. -/
theorem buildGraph_second_call_changes_children :
    ((buildGraph backfillNodes "T" none []).map
      (fun g => (g.nodesById.map Prod.fst, g.roots, g.childrenByDependencyId)) =
      some (["S-1", "S-2"], ["S-1"], [("S-1", ["S-2"])])) ∧
    ((buildGraph (buildGraphRecords backfillNodes "T" none) "T" none []).map
      (fun g => (g.nodesById.map Prod.fst, g.roots, g.childrenByDependencyId)) =
      some (["S-1", "S-2"], ["S-1"], [("S-1", ["S-2", "S-2"])])) := by decide

/-- C8: the children lists of a returned graph are not always duplicate-free:
when `A` explicitly declares child `B` and `B` also declares
`dependency = "A"`, with `A` preceding `B` in input order, the dependency
edge is pushed after the explicit child was recorded and no deduplication
happens, leaving `children(A) = ["B", "B"]`. -/
theorem children_list_duplicate_entry :
    (buildGraph dupEdgeNodes "T" none []).map
      (fun g => (getChildren g "A", decide ((getChildren g "A").Nodup))) =
    some (["B", "B"], false) := by decide

/-- C2 counterexample: in the graph built from `rootChildNodes`, node `"R"`
is simultaneously in the root list and in `P`'s children list although it is
part of no cycle (and no `cycle-detected` warning is emitted) — refuting
"it appears in both only if it is part of a cycle". -/
theorem root_and_child_without_cycle :
    (buildGraph rootChildNodes "T" none []).map
      (fun g => (decide ("R" ∈ g.roots), decide ("R" ∈ getChildren g "P"),
        inSomeCycle g "R",
        (g.warnings.filter (fun w => w.type == "cycle-detected")).length)) =
    some (true, true, false, 0) := by decide

/-- C3 counterexample: the claim's reading of the pattern (prefix = the
longest non-digit-terminated leading substring, digits = the whole trailing
run) disagrees with the code: `"1"` has no numeric identity at all for the
code (the regex needs a non-empty prefix), and `"123"` parses with prefix
`"1"` and value `23`, not the claimed prefix `""` with value `123`. -/
theorem parseNumericId_claim_counterexample :
    parseNumericId "1" = none ∧ claimedNumericId "1" = some ("", 1) ∧
    parseNumericId "123" =
      some { pfx := "1", numericValue := 23, originalSuffix := "23" } ∧
    claimedNumericId "123" = some ("", 123) := by decide

/-- C6 counterexample: node `"X"` has the recognized cross-boundary
dependency `"other@NODE-1"`, yet the returned graph carries a
`missing-dependency` warning naming `"X"` (caused by its dangling child
reference `"GHOST"`) — refuting the claimed "warning iff the dependency is
not a recognized cross-boundary reference". `"X"` is still a root. -/
theorem crossRepo_dep_still_warned_via_child :
    (buildGraph crossDepGhostChildNodes "T" (some otherRepoConfig) []).map
      (fun g => (decide ("X" ∈ g.roots),
        (g.warnings.filter
          (fun w => w.type == "missing-dependency" && w.nodeId == "X")).length,
        isValidCrossRepo (some otherRepoConfig)
          (parseCrossRepoDependency "other@NODE-1"))) =
    some (true, 1, true) := by decide

/-- C7 counterexample: the record `"S-2"` arrives with the non-null
dependency `""` (falsy in JS), and auto-linking overwrites it with `"S-1"` —
refuting "a non-null dependency is never overwritten". -/
theorem empty_dependency_overwritten :
    emptyDepNodes.map (·.dependency) = [none, some ""] ∧
    (buildGraphRecords emptyDepNodes "T" none).map (·.dependency) =
      [none, some "S-1"] := by decide

/-! ## Lemmas about the map and sort models -/

theorem alGet_nil {α : Type} (k : String) : alGet ([] : JMap α) k = none := rfl

theorem alGet_cons {α : Type} (a : String × α) (m : JMap α) (k : String) :
    alGet (a :: m) k = if a.1 == k then some a.2 else alGet m k := by
  simp only [alGet, List.find?]
  by_cases h : a.1 == k <;> simp [h]

theorem alHas_cons {α : Type} (a : String × α) (m : JMap α) (k : String) :
    alHas (a :: m) k = (a.1 == k || alHas m k) := by
  simp [alHas]

theorem alHas_eq_isSome {α : Type} (m : JMap α) (k : String) :
    alHas m k = (alGet m k).isSome := by
  induction m with
  | nil => rfl
  | cons a t ih =>
    rw [alHas_cons, alGet_cons]
    by_cases h : a.1 == k <;> simp [h, ih]

theorem alGet_append {α : Type} (m m' : JMap α) (k : String) :
    alGet (m ++ m') k = (alGet m k).orElse (fun _ => alGet m' k) := by
  induction m with
  | nil => simp [alGet_nil, Option.orElse]
  | cons a t ih =>
    rw [List.cons_append, alGet_cons, alGet_cons]
    by_cases h : a.1 == k <;> simp [h, ih, Option.orElse]

theorem alGet_update {α : Type} (m : JMap α) (k : String) (v : α) (k' : String) :
    alGet (m.map fun p => if p.1 == k then (k, v) else p) k' =
      if k' = k then (alGet m k).map (fun _ => v) else alGet m k' := by
  have hfun : (fun (p : String × α) => if p.1 == k then (k, v) else p) =
      (fun p => if p.1 = k then (k, v) else p) := by
    funext p
    by_cases h : p.1 = k <;> simp [h]
  rw [hfun]
  induction m with
  | nil => by_cases h : k' = k <;> simp [alGet_nil, h]
  | cons a t ih =>
    rw [List.map_cons]
    by_cases hak : a.1 = k
    · rw [if_pos hak, alGet_cons, alGet_cons]
      by_cases hk : k' = k
      · subst hk
        simp [hak, ih]
      · have h1 : ¬ (k == k') = true := by
          simp only [beq_iff_eq]
          exact fun q => hk q.symm
        have h2 : ¬ (a.1 == k') = true := by
          simp only [beq_iff_eq, hak]
          exact fun q => hk q.symm
        simp only [h1, Bool.false_eq_true, if_false, ih, hk]
        rw [alGet_cons]
        simp [h2]
    · rw [if_neg hak, alGet_cons, alGet_cons]
      by_cases hk : k' = k
      · subst hk
        have h2 : ¬ (a.1 == k') = true := by
          simp only [beq_iff_eq]
          exact hak
        simp [h2, ih]
      · by_cases hak' : a.1 = k' <;>
          · simp only [beq_iff_eq, hak', if_true, Bool.false_eq_true, if_false, ih, hk]
            rw [alGet_cons]
            simp [hak']

theorem alGet_alSet {α : Type} (m : JMap α) (k : String) (v : α) (k' : String) :
    alGet (alSet m k v) k' = if k' = k then some v else alGet m k' := by
  unfold alSet
  by_cases hh : alHas m k
  · rw [if_pos hh, alGet_update]
    by_cases hk : k' = k
    · subst hk
      rw [alHas_eq_isSome] at hh
      obtain ⟨w, hw⟩ := Option.isSome_iff_exists.mp hh
      simp [hw]
    · simp [hk]
  · rw [if_neg hh, alGet_append]
    have hg : alGet m k = none := by
      rw [alHas_eq_isSome] at hh
      simpa using hh
    by_cases hk : k' = k
    · subst hk
      simp [hg, alGet_cons, Option.orElse]
    · have h1 : ¬ (k == k') = true := by
        simp only [beq_iff_eq]
        exact fun q => hk q.symm
      cases hgk : alGet m k' <;>
        simp [alGet_cons, h1, Option.orElse, alGet_nil, hgk, hk]

theorem alHas_alSet {α : Type} (m : JMap α) (k : String) (v : α) (k' : String) :
    alHas (alSet m k v) k' = (k' == k || alHas m k') := by
  rw [alHas_eq_isSome, alHas_eq_isSome, alGet_alSet]
  by_cases hk : k' = k <;> simp [hk]

theorem mem_orderedInsert (x y : String) (l : List String) :
    x ∈ orderedInsert y l ↔ x = y ∨ x ∈ l := by
  induction l with
  | nil => simp [orderedInsert]
  | cons a t ih =>
    rw [orderedInsert]
    by_cases h : jsCompare y a = Ordering.gt
    · rw [if_pos h]
      rw [List.mem_cons, ih, List.mem_cons]
      tauto
    · rw [if_neg h]
      simp only [List.mem_cons]

theorem mem_jsSortStrings (x : String) (l : List String) :
    x ∈ jsSortStrings l ↔ x ∈ l := by
  induction l with
  | nil => simp [jsSortStrings]
  | cons a t ih =>
    simp only [jsSortStrings, List.foldr_cons]
    rw [show List.foldr orderedInsert [] t = jsSortStrings t from rfl]
    rw [mem_orderedInsert, ih, List.mem_cons]

/-! ## Frame lemmas for the auto-linker -/

/-- Children-list membership at key `p` of a link state. -/
def cmMem (s : LinkState) (p b : String) : Prop :=
  b ∈ (alGet s.childMap p).getD []

theorem mem_sort_append (b x : String) (ex : List String) :
    b ∈ jsSortStrings (ex ++ [x]) ↔ b ∈ ex ∨ b = x := by
  rw [mem_jsSortStrings, List.mem_append, List.mem_singleton]

/-- A node whose entry currently carries a truthy dependency is untouched by
the backfill step: its node-map entry, every children-list membership of it,
and its root membership are all preserved. -/
theorem autoLinkBackfill_frame (lookup : JMap String) (s : LinkState)
    (id : String) (node : FlowNode) (p : NumericId) (b : String) (nb : FlowNode)
    (hid : alGet s.nodesById id = some node)
    (hb : alGet s.nodesById b = some nb)
    (hdep : depAbsent nb.dependency = false) :
    alGet (autoLinkBackfill lookup s id node p).nodesById b = some nb ∧
    (∀ q, cmMem (autoLinkBackfill lookup s id node p) q b ↔ cmMem s q b) ∧
    (b ∈ (autoLinkBackfill lookup s id node p).roots ↔ b ∈ s.roots) := by
  unfold autoLinkBackfill
  split
  · next hc =>
    have hbid : b ≠ id := by
      intro he
      subst he
      rw [hid] at hb
      cases hb
      rw [hc.1] at hdep
      cases hdep
    split
    · exact ⟨hb, fun q => Iff.rfl, Iff.rfl⟩
    · next prevId hprev =>
      split
      · next hne =>
        dsimp only
        by_cases hct : ((alGet s.childMap prevId).getD []).contains id = true
        · rw [if_pos hct]
          refine ⟨?_, fun q => Iff.rfl, List.mem_erase_of_ne hbid⟩
          rw [alGet_alSet, if_neg hbid]
          exact hb
        · rw [if_neg hct]
          refine ⟨?_, ?_, List.mem_erase_of_ne hbid⟩
          · rw [alGet_alSet, if_neg hbid]
            exact hb
          · intro q
            unfold cmMem
            by_cases hq : q = prevId
            · subst hq
              rw [alGet_alSet, if_pos rfl]
              simp only [Option.getD_some]
              rw [mem_sort_append]
              simp [hbid]
            · rw [alGet_alSet, if_neg hq]
      · exact ⟨hb, fun q => Iff.rfl, Iff.rfl⟩
  · exact ⟨hb, fun q => Iff.rfl, Iff.rfl⟩

/-- The successor step never touches the node map or the roots, and never
adds a node whose entry carries a truthy dependency to a children list. -/
theorem autoLinkSuccessor_frame (lookup : JMap String) (s : LinkState)
    (id : String) (p : NumericId) (b : String) (nb : FlowNode)
    (hb : alGet s.nodesById b = some nb)
    (hdep : depAbsent nb.dependency = false) :
    alGet (autoLinkSuccessor lookup s id p).nodesById b = some nb ∧
    (∀ q, cmMem (autoLinkSuccessor lookup s id p) q b ↔ cmMem s q b) ∧
    (autoLinkSuccessor lookup s id p).roots = s.roots := by
  unfold autoLinkSuccessor
  dsimp only
  split
  · exact ⟨hb, fun q => Iff.rfl, rfl⟩
  · next nextId hnx =>
    split
    · next hcond =>
      split
      · exact ⟨hb, fun q => Iff.rfl, rfl⟩
      · next nextNode hnn =>
        split
        · next hdn =>
          have hbn : b ≠ nextId := by
            intro he
            subst he
            rw [hnn] at hb
            cases hb
            rw [hdn] at hdep
            cases hdep
          refine ⟨hb, ?_, rfl⟩
          intro q
          unfold cmMem
          by_cases hq : q = id
          · subst hq
            rw [alGet_alSet, if_pos rfl]
            simp only [Option.getD_some]
            rw [mem_sort_append]
            simp [hbn]
          · rw [alGet_alSet, if_neg hq]
        · exact ⟨hb, fun q => Iff.rfl, rfl⟩
    · exact ⟨hb, fun q => Iff.rfl, rfl⟩

/-- One full auto-link iteration preserves the entry, the children-list
memberships and the root membership of any node with a truthy dependency. -/
theorem autoLinkStep_frame (lookup : JMap String) (s : LinkState)
    (id : String) (b : String) (nb : FlowNode)
    (hb : alGet s.nodesById b = some nb)
    (hdep : depAbsent nb.dependency = false) :
    alGet (autoLinkStep lookup s id).nodesById b = some nb ∧
    (∀ q, cmMem (autoLinkStep lookup s id) q b ↔ cmMem s q b) ∧
    (b ∈ (autoLinkStep lookup s id).roots ↔ b ∈ s.roots) := by
  unfold autoLinkStep
  split
  · exact ⟨hb, fun q => Iff.rfl, Iff.rfl⟩
  · next node hnode =>
    split
    · exact ⟨hb, fun q => Iff.rfl, Iff.rfl⟩
    · next p hp =>
      dsimp only
      obtain ⟨h1, h2, h3⟩ := autoLinkBackfill_frame lookup s id node p b nb hnode hb hdep
      obtain ⟨g1, g2, g3⟩ := autoLinkSuccessor_frame lookup
        (autoLinkBackfill lookup s id node p) id p b nb h1 hdep
      refine ⟨g1, fun q => (g2 q).trans (h2 q), ?_⟩
      rw [g3]
      exact h3

/-- Fold form of `autoLinkStep_frame` over any id sequence. -/
theorem autoLinkFold_frame (ids : List String) (lookup : JMap String)
    (s : LinkState) (b : String) (nb : FlowNode)
    (hb : alGet s.nodesById b = some nb)
    (hdep : depAbsent nb.dependency = false) :
    alGet (ids.foldl (autoLinkStep lookup) s).nodesById b = some nb ∧
    (∀ q, cmMem (ids.foldl (autoLinkStep lookup) s) q b ↔ cmMem s q b) ∧
    (b ∈ (ids.foldl (autoLinkStep lookup) s).roots ↔ b ∈ s.roots) := by
  induction ids generalizing s with
  | nil => exact ⟨hb, fun q => Iff.rfl, Iff.rfl⟩
  | cons id rest ih =>
    obtain ⟨h1, h2, h3⟩ := autoLinkStep_frame lookup s id b nb hb hdep
    obtain ⟨g1, g2, g3⟩ := ih (autoLinkStep lookup s id) h1
    exact ⟨g1, fun q => (g2 q).trans (h2 q), g3.trans h3⟩

/-- `applyAutoNumericLinks` preserves the entry, children memberships and
root membership of every node that already carries a truthy dependency. -/
theorem applyAutoNumericLinks_frame (s : LinkState) (b : String) (nb : FlowNode)
    (hb : alGet s.nodesById b = some nb)
    (hdep : depAbsent nb.dependency = false) :
    alGet (applyAutoNumericLinks s).nodesById b = some nb ∧
    (∀ q, cmMem (applyAutoNumericLinks s) q b ↔ cmMem s q b) ∧
    (b ∈ (applyAutoNumericLinks s).roots ↔ b ∈ s.roots) := by
  unfold applyAutoNumericLinks
  exact autoLinkFold_frame _ _ s b nb hb hdep

/-- The state right before auto-linking in the explicit-dependency scenario:
`"S-03"` already carries `dependency = "S-001"`. -/
def chainExplicitPreState : LinkState :=
  { nodesById :=
      [("S-001", mkNode "S-001" none none), ("S-2", mkNode "S-2" none none),
       ("S-03", mkNode "S-03" (some "S-001") none)]
    childMap := [("S-001", ["S-03"])]
    roots := ["S-001", "S-2"] }

/-- C5: the successor auto-link only fires on a successor that is found, is
not the node itself, is not already a child, and currently has no (truthy)
dependency of its own. Concretely, with `"S-03"` explicitly declaring
`dependency = "S-001"`, the `"S-2" → "S-03"` edge is not inserted — the final
children map has `"S-2"` childless. Universally, the auto-linker never adds a
node whose entry carries a truthy dependency to any children list (nor
removes it from one, nor changes its entry or root membership): its
children-list memberships after `applyAutoNumericLinks` coincide with those
before. -/
theorem autoLink_respects_existing_dependency :
    ((buildGraph chainNodesExplicit "T" none []).map
      (fun g => (g.roots, getChildren g "S-2", g.childrenByDependencyId)) =
      some (["S-001"], [], [("S-001", ["S-03", "S-2"])])) ∧
    ∀ (s : LinkState) (b : String) (nb : FlowNode),
      alGet s.nodesById b = some nb → depAbsent nb.dependency = false →
      ∀ q, cmMem (applyAutoNumericLinks s) q b ↔ cmMem s q b :=
  ⟨by decide, fun s b nb hb hdep q => (applyAutoNumericLinks_frame s b nb hb hdep).2.1 q⟩

/-- Witness for C5: the universal part applied to the explicit-dependency
scenario — `"S-03"`, which has dependency `"S-001"`, is a child of `"S-2"`
after auto-linking exactly if it was before (it is not). -/
theorem autoLink_respects_existing_dependency_witness :
    cmMem (applyAutoNumericLinks chainExplicitPreState) "S-2" "S-03" ↔
      cmMem chainExplicitPreState "S-2" "S-03" :=
  autoLink_respects_existing_dependency.2 chainExplicitPreState "S-03"
    (mkNode "S-03" (some "S-001") none) (by decide) (by decide) "S-2"

/-! ## Phase-2 invariants: every node becomes a root or a child -/

/-- Children-list membership at key `q` of a raw children map. -/
def cmIn (cm : JMap (List String)) (q x : String) : Prop :=
  x ∈ (alGet cm q).getD []

theorem alGet_mem {α : Type} (m : JMap α) (x : String) (v : α)
    (h : alGet m x = some v) : (x, v) ∈ m := by
  induction m with
  | nil => cases h
  | cons a t ih =>
    rw [alGet_cons] at h
    by_cases ha : (a.1 == x) = true
    · rw [if_pos ha] at h
      have h1 : a.1 = x := by simpa using ha
      have h2 : a.2 = v := by cases h; rfl
      have hav : a = (x, v) := by
        cases a
        simp only at h1 h2
        rw [h1, h2]
      rw [hav]
      exact List.mem_cons_self _ _
    · rw [if_neg ha] at h
      exact List.mem_cons_of_mem _ (ih h)

theorem alGet_mapValues {α β : Type} (m : JMap α) (f : α → β) (k : String) :
    alGet (m.map (fun e => (e.1, f e.2))) k = (alGet m k).map f := by
  induction m with
  | nil => rfl
  | cons a t ih =>
    rw [List.map_cons, alGet_cons, alGet_cons]
    by_cases h : (a.1 == k) = true <;> simp [h, ih]

/-- The dependency-resolution step is monotone on roots and children-list
memberships, and classifies its own node as a root or as a child. -/
theorem resolveDependency_inv (m : JMap FlowNode) (c : Option FlowDocConfig)
    (s : BuildState) (id : String) (node : FlowNode) :
    (∀ x, x ∈ s.roots → x ∈ (resolveDependency m c s id node).roots) ∧
    (∀ q x, cmIn s.childMap q x → cmIn (resolveDependency m c s id node).childMap q x) ∧
    (id ∈ (resolveDependency m c s id node).roots ∨
      ∃ q, cmIn (resolveDependency m c s id node).childMap q id) := by
  unfold resolveDependency
  split
  · exact ⟨fun x hx => List.mem_append_left _ hx, fun q x h => h,
      Or.inl (List.mem_append_right _ (List.mem_singleton.mpr rfl))⟩
  · dsimp only
    split
    · refine ⟨fun x hx => hx, ?_, ?_⟩
      · intro q x h
        unfold cmIn at h ⊢
        by_cases hq : q = node.dependency.getD ""
        · subst hq
          rw [alGet_alSet, if_pos rfl]
          simp only [Option.getD_some]
          exact List.mem_append_left _ h
        · rw [alGet_alSet, if_neg hq]
          exact h
      · refine Or.inr ⟨node.dependency.getD "", ?_⟩
        unfold cmIn
        rw [alGet_alSet, if_pos rfl]
        simp only [Option.getD_some]
        exact List.mem_append_right _ (List.mem_singleton.mpr rfl)
    · split <;>
        exact ⟨fun x hx => List.mem_append_left _ hx, fun q x h => h,
          Or.inl (List.mem_append_right _ (List.mem_singleton.mpr rfl))⟩

/-- The explicit-children loop only appends to the accumulated list. -/
theorem childRefFold_mono (m : JMap FlowNode) (c : Option FlowDocConfig)
    (id : String) (node : FlowNode) :
    ∀ (refs : List String) (acc : List String × List GraphWarning) (x : String),
      x ∈ acc.1 → x ∈ (refs.foldl (childRefStep m c id node) acc).1 := by
  intro refs
  induction refs with
  | nil => exact fun acc x h => h
  | cons r rest ih =>
    intro acc x h
    rw [List.foldl_cons]
    refine ih _ x ?_
    unfold childRefStep
    dsimp only
    split
    · exact h
    · split
      · split <;> exact List.mem_append_left _ h
      · split
        · exact List.mem_append_left _ h
        · exact h

/-- The explicit-children step keeps the roots and is monotone on
children-list memberships. -/
theorem resolveChildrenDecls_inv (m : JMap FlowNode) (c : Option FlowDocConfig)
    (s : BuildState) (id : String) (node : FlowNode) :
    (resolveChildrenDecls m c s id node).roots = s.roots ∧
    (∀ q x, cmIn s.childMap q x → cmIn (resolveChildrenDecls m c s id node).childMap q x) := by
  unfold resolveChildrenDecls
  split
  · exact ⟨rfl, fun q x h => h⟩
  · next refs =>
    split
    · exact ⟨rfl, fun q x h => h⟩
    · dsimp only
      split
      · refine ⟨rfl, fun q x h => ?_⟩
        unfold cmIn at h ⊢
        by_cases hq : q = id
        · subst hq
          rw [alGet_alSet, if_pos rfl]
          simp only [Option.getD_some]
          exact childRefFold_mono m c _ node _ _ x h
        · rw [alGet_alSet, if_neg hq]
          exact h
      · exact ⟨rfl, fun q x h => h⟩

/-- One phase-2 iteration: monotone on roots and children memberships, and
its own node ends up a root or a child. -/
theorem resolveNode_inv (m : JMap FlowNode) (c : Option FlowDocConfig)
    (s : BuildState) (e : String × FlowNode) :
    (∀ x, x ∈ s.roots → x ∈ (resolveNode m c s e).roots) ∧
    (∀ q x, cmIn s.childMap q x → cmIn (resolveNode m c s e).childMap q x) ∧
    (e.1 ∈ (resolveNode m c s e).roots ∨ ∃ q, cmIn (resolveNode m c s e).childMap q e.1) := by
  obtain ⟨d1, d2, d3⟩ := resolveDependency_inv m c s e.1 e.2
  obtain ⟨k1, k2⟩ := resolveChildrenDecls_inv m c (resolveDependency m c s e.1 e.2) e.1 e.2
  refine ⟨?_, ?_, ?_⟩
  · intro x hx
    show x ∈ (resolveChildrenDecls m c _ e.1 e.2).roots
    rw [k1]
    exact d1 x hx
  · exact fun q x h => k2 q x (d2 q x h)
  · rcases d3 with hr | ⟨q, hq⟩
    · exact Or.inl (by show e.1 ∈ (resolveChildrenDecls m c _ e.1 e.2).roots; rw [k1]; exact hr)
    · exact Or.inr ⟨q, k2 q e.1 hq⟩

/-- Folding phase 2 over entries is monotone on roots and children
memberships. -/
theorem resolveFold_mono (m : JMap FlowNode) (c : Option FlowDocConfig) :
    ∀ (entries : List (String × FlowNode)) (s : BuildState) (x : String),
      (x ∈ s.roots → x ∈ (entries.foldl (resolveNode m c) s).roots) ∧
      (∀ q, cmIn s.childMap q x → cmIn (entries.foldl (resolveNode m c) s).childMap q x) := by
  intro entries
  induction entries with
  | nil => exact fun s x => ⟨fun h => h, fun q h => h⟩
  | cons e rest ih =>
    intro s x
    rw [List.foldl_cons]
    obtain ⟨n1, n2, _⟩ := resolveNode_inv m c s e
    exact ⟨fun h => (ih _ x).1 (n1 x h), fun q h => (ih _ x).2 q (n2 q x h)⟩

/-- Every entry processed by phase 2 ends up a root or in a children list. -/
theorem resolveFold_est (m : JMap FlowNode) (c : Option FlowDocConfig) :
    ∀ (entries : List (String × FlowNode)) (s : BuildState) (e : String × FlowNode),
      e ∈ entries →
      e.1 ∈ (entries.foldl (resolveNode m c) s).roots ∨
        ∃ q, cmIn (entries.foldl (resolveNode m c) s).childMap q e.1 := by
  intro entries
  induction entries with
  | nil => intro s e h; cases h
  | cons a rest ih =>
    intro s e he
    rw [List.foldl_cons]
    rcases List.mem_cons.mp he with rfl | hmem
    · obtain ⟨_, _, est⟩ := resolveNode_inv m c s e
      rcases est with hr | ⟨q, hq⟩
      · exact Or.inl ((resolveFold_mono m c rest _ e.1).1 hr)
      · exact Or.inr ⟨q, (resolveFold_mono m c rest _ e.1).2 q hq⟩
    · exact ih _ e hmem

/-! ## Auto-linker: keys stable, children monotone, roots only traded for edges -/

/-- Backfill keeps the key set, only extends children-list memberships, and
removes a node from the roots only while guaranteeing it a children-list
membership. -/
theorem autoLinkBackfill_inv (lookup : JMap String) (s : LinkState)
    (id : String) (node : FlowNode) (p : NumericId)
    (hid : alGet s.nodesById id = some node) :
    (∀ x, alHas (autoLinkBackfill lookup s id node p).nodesById x = alHas s.nodesById x) ∧
    (∀ q x, cmMem s q x → cmMem (autoLinkBackfill lookup s id node p) q x) ∧
    (∀ x, x ∈ s.roots →
      x ∈ (autoLinkBackfill lookup s id node p).roots ∨
        ∃ q, cmMem (autoLinkBackfill lookup s id node p) q x) := by
  have hhas : alHas s.nodesById id = true := by
    rw [alHas_eq_isSome, hid]
    rfl
  unfold autoLinkBackfill
  split
  · split
    · exact ⟨fun x => rfl, fun q x h => h, fun x hx => Or.inl hx⟩
    · next prevId hprev =>
      split
      · next hne =>
        dsimp only
        have hkeys : ∀ x, alHas (alSet s.nodesById id
            { node with dependency := some prevId }) x = alHas s.nodesById x := by
          intro x
          rw [alHas_alSet]
          by_cases hx : x = id
          · subst hx
            simp [hhas]
          · have : ¬ (x == id) = true := by simpa using hx
            simp [this]
        by_cases hct : ((alGet s.childMap prevId).getD []).contains id = true
        · rw [if_pos hct]
          refine ⟨hkeys, fun q x h => h, ?_⟩
          intro x hx
          by_cases hxid : x = id
          · subst hxid
            refine Or.inr ⟨prevId, ?_⟩
            unfold cmMem
            simpa using hct
          · exact Or.inl ((List.mem_erase_of_ne hxid).mpr hx)
        · rw [if_neg hct]
          refine ⟨hkeys, ?_, ?_⟩
          · intro q x h
            unfold cmMem at h ⊢
            by_cases hq : q = prevId
            · subst hq
              rw [alGet_alSet, if_pos rfl]
              simp only [Option.getD_some]
              rw [mem_sort_append]
              exact Or.inl h
            · rw [alGet_alSet, if_neg hq]
              exact h
          · intro x hx
            by_cases hxid : x = id
            · subst hxid
              refine Or.inr ⟨prevId, ?_⟩
              unfold cmMem
              rw [alGet_alSet, if_pos rfl]
              simp only [Option.getD_some]
              rw [mem_sort_append]
              exact Or.inr rfl
            · exact Or.inl ((List.mem_erase_of_ne hxid).mpr hx)
      · exact ⟨fun x => rfl, fun q x h => h, fun x hx => Or.inl hx⟩
  · exact ⟨fun x => rfl, fun q x h => h, fun x hx => Or.inl hx⟩

/-- The successor step keeps the node map and the roots, and only extends
children-list memberships. -/
theorem autoLinkSuccessor_inv (lookup : JMap String) (s : LinkState)
    (id : String) (p : NumericId) :
    (autoLinkSuccessor lookup s id p).nodesById = s.nodesById ∧
    (∀ q x, cmMem s q x → cmMem (autoLinkSuccessor lookup s id p) q x) ∧
    (autoLinkSuccessor lookup s id p).roots = s.roots := by
  unfold autoLinkSuccessor
  dsimp only
  split
  · exact ⟨rfl, fun q x h => h, rfl⟩
  · next nextId hnx =>
    split
    · split
      · exact ⟨rfl, fun q x h => h, rfl⟩
      · split
        · refine ⟨rfl, ?_, rfl⟩
          intro q x h
          unfold cmMem at h ⊢
          by_cases hq : q = id
          · subst hq
            rw [alGet_alSet, if_pos rfl]
            simp only [Option.getD_some]
            rw [mem_sort_append]
            exact Or.inl h
          · rw [alGet_alSet, if_neg hq]
            exact h
        · exact ⟨rfl, fun q x h => h, rfl⟩
    · exact ⟨rfl, fun q x h => h, rfl⟩

/-- One auto-link iteration: keys stable, children monotone, roots only
traded for a children-list membership. -/
theorem autoLinkStep_inv (lookup : JMap String) (s : LinkState) (id : String) :
    (∀ x, alHas (autoLinkStep lookup s id).nodesById x = alHas s.nodesById x) ∧
    (∀ q x, cmMem s q x → cmMem (autoLinkStep lookup s id) q x) ∧
    (∀ x, x ∈ s.roots →
      x ∈ (autoLinkStep lookup s id).roots ∨ ∃ q, cmMem (autoLinkStep lookup s id) q x) := by
  unfold autoLinkStep
  split
  · exact ⟨fun x => rfl, fun q x h => h, fun x hx => Or.inl hx⟩
  · next node hnode =>
    split
    · exact ⟨fun x => rfl, fun q x h => h, fun x hx => Or.inl hx⟩
    · next p hp =>
      dsimp only
      obtain ⟨b1, b2, b3⟩ := autoLinkBackfill_inv lookup s id node p hnode
      obtain ⟨s1, s2, s3⟩ := autoLinkSuccessor_inv lookup
        (autoLinkBackfill lookup s id node p) id p
      refine ⟨?_, fun q x h => s2 q x (b2 q x h), ?_⟩
      · intro x
        rw [s1]
        exact b1 x
      · intro x hx
        rcases b3 x hx with hr | ⟨q, hq⟩
        · rw [s3] at *
          exact Or.inl (by rw [s3]; exact hr)
        · exact Or.inr ⟨q, s2 q x hq⟩

/-- Fold form of `autoLinkStep_inv`. -/
theorem autoLinkFold_inv (ids : List String) (lookup : JMap String) :
    ∀ (s : LinkState),
      (∀ x, alHas (ids.foldl (autoLinkStep lookup) s).nodesById x = alHas s.nodesById x) ∧
      (∀ q x, cmMem s q x → cmMem (ids.foldl (autoLinkStep lookup) s) q x) ∧
      (∀ x, x ∈ s.roots →
        x ∈ (ids.foldl (autoLinkStep lookup) s).roots ∨
          ∃ q, cmMem (ids.foldl (autoLinkStep lookup) s) q x) := by
  induction ids with
  | nil => exact fun s => ⟨fun x => rfl, fun q x h => h, fun x hx => Or.inl hx⟩
  | cons id rest ih =>
    intro s
    rw [List.foldl_cons]
    obtain ⟨a1, a2, a3⟩ := autoLinkStep_inv lookup s id
    obtain ⟨f1, f2, f3⟩ := ih (autoLinkStep lookup s id)
    refine ⟨fun x => (f1 x).trans (a1 x), fun q x h => f2 q x (a2 q x h), ?_⟩
    intro x hx
    rcases a3 x hx with hr | ⟨q, hq⟩
    · exact f3 x hr
    · exact Or.inr ⟨q, f2 q x hq⟩

/-- `applyAutoNumericLinks`: keys stable, children monotone, roots only
traded for a children-list membership. -/
theorem applyAutoNumericLinks_inv (s : LinkState) :
    (∀ x, alHas (applyAutoNumericLinks s).nodesById x = alHas s.nodesById x) ∧
    (∀ q x, cmMem s q x → cmMem (applyAutoNumericLinks s) q x) ∧
    (∀ x, x ∈ s.roots →
      x ∈ (applyAutoNumericLinks s).roots ∨ ∃ q, cmMem (applyAutoNumericLinks s) q x) := by
  unfold applyAutoNumericLinks
  exact autoLinkFold_inv _ _ s

/-- Through phases 2–5, every node of the deduplicated map ends up in the
roots or in some children list. -/
theorem core_root_or_child (m0 : JMap FlowNode) (config : Option FlowDocConfig)
    (w1 : List GraphWarning) (id : String) (hid : alHas m0 id = true) :
    id ∈ (applyAutoNumericLinks
      { nodesById := m0
        childMap := (m0.foldl (resolveNode m0 config)
          { childMap := [], roots := [], warnings := w1 }).childMap.map
            (fun e => (e.1, jsSortStrings e.2))
        roots := jsSortStrings (m0.foldl (resolveNode m0 config)
          { childMap := [], roots := [], warnings := w1 }).roots }).roots ∨
    ∃ q, cmMem (applyAutoNumericLinks
      { nodesById := m0
        childMap := (m0.foldl (resolveNode m0 config)
          { childMap := [], roots := [], warnings := w1 }).childMap.map
            (fun e => (e.1, jsSortStrings e.2))
        roots := jsSortStrings (m0.foldl (resolveNode m0 config)
          { childMap := [], roots := [], warnings := w1 }).roots }) q id := by
  obtain ⟨v, hv⟩ : ∃ v, alGet m0 id = some v := by
    rw [alHas_eq_isSome] at hid
    exact Option.isSome_iff_exists.mp hid
  have hmem : (id, v) ∈ m0 := alGet_mem _ _ _ hv
  have est := resolveFold_est m0 config m0
    { childMap := [], roots := [], warnings := w1 } (id, v) hmem
  rcases est with hr | ⟨q, hq⟩
  · exact (applyAutoNumericLinks_inv _).2.2 id ((mem_jsSortStrings id _).mpr hr)
  · refine Or.inr ⟨q, (applyAutoNumericLinks_inv _).2.1 q id ?_⟩
    unfold cmMem
    unfold cmIn at hq
    show id ∈ (alGet ((_ : BuildState).childMap.map fun e => (e.1, jsSortStrings e.2)) q).getD []
    rw [alGet_mapValues]
    cases halg : alGet (m0.foldl (resolveNode m0 config)
        { childMap := [], roots := [], warnings := w1 }).childMap q with
    | none =>
      rw [halg] at hq
      cases hq
    | some l =>
      rw [halg] at hq
      simp only [Option.map_some', Option.getD_some] at *
      exact (mem_jsSortStrings id l).mpr hq

/-- C2 (amended): in every graph returned by `buildGraph`, every node id of
the node map either is in the root list or appears in some parent's child
list. (Appearing in both does not require a cycle — see the counterexample
theorem for the dropped "only if cyclic" part.) -/
theorem buildGraph_root_or_child
    (nodes : List FlowNode) (topic : String) (config : Option FlowDocConfig)
    (errors : List GraphError) (g : TopicGraph)
    (h : buildGraph nodes topic config errors = some g) :
    ∀ id, alHas g.nodesById id = true → id ∈ g.roots ∨ ∃ p, id ∈ getChildren g p := by
  have hng : g.nodesById = (buildGraphCore nodes topic config).1.nodesById ∧
      g.childrenByDependencyId = (buildGraphCore nodes topic config).1.childMap ∧
      g.roots = (buildGraphCore nodes topic config).1.roots := by
    unfold buildGraph at h
    dsimp only at h
    cases hrc : runCycleDetection (buildGraphCore nodes topic config).1.childMap
        (buildGraphCore nodes topic config).1.nodesById
        (buildGraphCore nodes topic config).2
        (buildGraphCore nodes topic config).1.roots with
    | none =>
      rw [hrc] at h
      cases h
    | some fw =>
      rw [hrc] at h
      cases h
      exact ⟨rfl, rfl, rfl⟩
  obtain ⟨hn, hc, hr⟩ := hng
  intro id hid
  rw [hn] at hid
  have hid0 : alHas (dedupeNodes (nodes.filter (fun n => n.topic == topic))).1 id = true := by
    rw [show (buildGraphCore nodes topic config).1 =
        applyAutoNumericLinks
          { nodesById := (dedupeNodes (nodes.filter (fun n => n.topic == topic))).1
            childMap := ((dedupeNodes (nodes.filter (fun n => n.topic == topic))).1.foldl
              (resolveNode (dedupeNodes (nodes.filter (fun n => n.topic == topic))).1 config)
              { childMap := [], roots := []
                warnings := (dedupeNodes (nodes.filter (fun n => n.topic == topic))).2 }).childMap.map
                (fun e => (e.1, jsSortStrings e.2))
            roots := jsSortStrings ((dedupeNodes (nodes.filter (fun n => n.topic == topic))).1.foldl
              (resolveNode (dedupeNodes (nodes.filter (fun n => n.topic == topic))).1 config)
              { childMap := [], roots := []
                warnings := (dedupeNodes (nodes.filter (fun n => n.topic == topic))).2 }).roots }
      from rfl] at hid
    rw [(applyAutoNumericLinks_inv _).1 id] at hid
    exact hid
  have key := core_root_or_child (dedupeNodes (nodes.filter (fun n => n.topic == topic))).1
    config (dedupeNodes (nodes.filter (fun n => n.topic == topic))).2 id hid0
  rcases key with hroot | ⟨q, hq⟩
  · left
    rw [hr]
    exact hroot
  · right
    refine ⟨q, ?_⟩
    unfold getChildren
    rw [hc]
    exact hq

/-- The graph built from `rootChildNodes` (used by the C2 witness). -/
def rootChildGraph : TopicGraph :=
  (buildGraph rootChildNodes "T" none []).getD
    { topic := "", nodesById := [], childrenByDependencyId := [], roots := []
      warnings := [], errors := [] }

/-- Witness for C2: applied to the concrete `rootChildNodes` build, node
`"R"` is a root or somebody's child. -/
theorem buildGraph_root_or_child_witness :
    "R" ∈ rootChildGraph.roots ∨ ∃ p, "R" ∈ getChildren rootChildGraph p :=
  buildGraph_root_or_child rootChildNodes "T" none [] rootChildGraph
    (by decide) "R" (by decide)

/-! ## What the backfill writes: the dependency-relation of the node map -/

theorem alHas_of_mem (m : JMap FlowNode) (e : String × FlowNode) (h : e ∈ m) :
    alHas m e.1 = true := by
  unfold alHas
  exact List.any_eq_true.mpr ⟨e, h, by simp⟩

/-- Every value of the numeric lookup is a (non-empty) key of the node map. -/
theorem numericLookup_values_aux (m : JMap FlowNode) :
    ∀ (entries : List (String × FlowNode)) (acc : JMap String),
      (∀ e ∈ entries, alHas m e.1 = true) →
      (∀ k v, alGet acc k = some v → alHas m v = true ∧ depAbsent (some v) = false) →
      ∀ k v, alGet (entries.foldl numericLookupStep acc) k = some v →
        alHas m v = true ∧ depAbsent (some v) = false := by
  intro entries
  induction entries with
  | nil => exact fun acc _ hacc => hacc
  | cons e rest ih =>
    intro acc hent hacc k v hget
    rw [List.foldl_cons] at hget
    refine ih (numericLookupStep acc e) (fun x hx => hent x (List.mem_cons_of_mem _ hx))
      ?_ k v hget
    intro k' v' hg
    unfold numericLookupStep at hg
    split at hg
    · exact hacc k' v' hg
    · next p hp =>
      dsimp only at hg
      split at hg
      · exact hacc k' v' hg
      · rw [alGet_append] at hg
        cases hacc' : alGet acc k' with
        | some w =>
          rw [hacc'] at hg
          cases hg
          exact hacc k' v' hacc'
        | none =>
          rw [hacc'] at hg
          simp only [Option.orElse] at hg
          rw [alGet_cons] at hg
          by_cases hk : (numericKey p.pfx p.numericValue == k') = true
          · rw [if_pos hk] at hg
            cases hg
            constructor
            · exact hent e (List.mem_cons_self _ _)
            · have hne : e.1 ≠ "" := by
                intro he
                have hnone : parseNumericId "" = none := by decide
                rw [he, hnone] at hp
                cases hp
              simpa [depAbsent] using hne
          · rw [if_neg hk] at hg
            cases hg
  
theorem numericLookup_values (m : JMap FlowNode) (k v : String)
    (h : alGet (numericLookupOf m) k = some v) :
    alHas m v = true ∧ depAbsent (some v) = false := by
  unfold numericLookupOf at h
  refine numericLookup_values_aux m m [] (fun e he => alHas_of_mem m e he)
    (fun k' v' hg => by cases hg) k v h

/-- How an entry of the node map may relate to its original after
auto-linking: unchanged, or — only if its dependency was absent — equal up to
a backfilled dependency pointing at a non-empty key of the original map. -/
def depRel (m0 : JMap FlowNode) (a b : FlowNode) : Prop :=
  b = a ∨ (depAbsent a.dependency = true ∧ ∃ pv, depAbsent (some pv) = false ∧
    b = { a with dependency := some pv } ∧ alHas m0 pv = true)

theorem autoLinkBackfill_rel (m0 : JMap FlowNode) (lookup : JMap String)
    (s : LinkState) (id : String) (node : FlowNode) (p : NumericId)
    (hlook : ∀ k v, alGet lookup k = some v → alHas m0 v = true ∧ depAbsent (some v) = false)
    (hnode : alGet s.nodesById id = some node)
    (hrel : ∀ x a, alGet m0 x = some a → ∃ b, alGet s.nodesById x = some b ∧ depRel m0 a b) :
    ∀ x a, alGet m0 x = some a →
      ∃ b, alGet (autoLinkBackfill lookup s id node p).nodesById x = some b ∧ depRel m0 a b := by
  unfold autoLinkBackfill
  split
  · next hc =>
    split
    · exact hrel
    · next prevId hprev =>
      split
      · next hne =>
        dsimp only
        have core : ∀ x a, alGet m0 x = some a →
            ∃ b, alGet (alSet s.nodesById id { node with dependency := some prevId }) x =
              some b ∧ depRel m0 a b := by
          intro x a ha
          by_cases hx : x = id
          · subst hx
            obtain ⟨b0, hb0, hrel0⟩ := hrel x a ha
            rw [hnode] at hb0
            have hbn : node = b0 := Option.some.inj hb0
            subst hbn
            rcases hrel0 with rfl | ⟨habs, pv, hpv, hbeq, hhas⟩
            · refine ⟨{ node with dependency := some prevId }, ?_, ?_⟩
              · rw [alGet_alSet, if_pos rfl]
              · obtain ⟨hhasp, hnep⟩ := hlook _ _ hprev
                exact Or.inr ⟨hc.1, prevId, hnep, rfl, hhasp⟩
            · rw [hbeq] at hc
              simp only [depAbsent] at hc
              rw [show depAbsent (some pv) = (pv == "") from rfl] at hpv
              rw [hc.1] at hpv
              cases hpv
          · obtain ⟨b, hb, hr⟩ := hrel x a ha
            refine ⟨b, ?_, hr⟩
            rw [alGet_alSet, if_neg hx]
            exact hb
        by_cases hct : ((alGet s.childMap prevId).getD []).contains id = true
        · rw [if_pos hct]
          exact core
        · rw [if_neg hct]
          exact core
      · exact hrel
  · exact hrel

theorem autoLinkStep_rel (m0 : JMap FlowNode) (lookup : JMap String)
    (s : LinkState) (id : String)
    (hlook : ∀ k v, alGet lookup k = some v → alHas m0 v = true ∧ depAbsent (some v) = false)
    (hrel : ∀ x a, alGet m0 x = some a → ∃ b, alGet s.nodesById x = some b ∧ depRel m0 a b) :
    ∀ x a, alGet m0 x = some a →
      ∃ b, alGet (autoLinkStep lookup s id).nodesById x = some b ∧ depRel m0 a b := by
  unfold autoLinkStep
  split
  · exact hrel
  · next node hnode =>
    split
    · exact hrel
    · next p hp =>
      dsimp only
      intro x a ha
      rw [(autoLinkSuccessor_inv lookup (autoLinkBackfill lookup s id node p) id p).1]
      exact autoLinkBackfill_rel m0 lookup s id node p hlook hnode hrel x a ha

theorem autoLinkFold_rel (m0 : JMap FlowNode) (lookup : JMap String)
    (hlook : ∀ k v, alGet lookup k = some v → alHas m0 v = true ∧ depAbsent (some v) = false) :
    ∀ (ids : List String) (s : LinkState),
      (∀ x a, alGet m0 x = some a → ∃ b, alGet s.nodesById x = some b ∧ depRel m0 a b) →
      ∀ x a, alGet m0 x = some a →
        ∃ b, alGet (ids.foldl (autoLinkStep lookup) s).nodesById x = some b ∧ depRel m0 a b := by
  intro ids
  induction ids with
  | nil => exact fun s hrel => hrel
  | cons id rest ih =>
    intro s hrel
    rw [List.foldl_cons]
    exact ih _ (autoLinkStep_rel m0 lookup s id hlook hrel)

/-- The full auto-link pass relates every entry of the node map to its
original by `depRel`. -/
theorem applyAutoNumericLinks_rel (s : LinkState) :
    ∀ x a, alGet s.nodesById x = some a →
      ∃ b, alGet (applyAutoNumericLinks s).nodesById x = some b ∧ depRel s.nodesById a b := by
  unfold applyAutoNumericLinks
  exact autoLinkFold_rel s.nodesById (numericLookupOf s.nodesById)
    (numericLookup_values s.nodesById) _ s (fun x a ha => ⟨a, ha, Or.inl rfl⟩)

/-! ## C6: unresolvable dependencies -/

/-- The dependency-resolution step on a truthy dependency that matches no
local node: the node joins the roots (whether or not the reference is a
recognized cross-repo one), the children map is untouched, and exactly one
`missing-dependency` warning is appended iff the reference is not a
recognized cross-repo one. -/
theorem resolveDependency_unresolved (m : JMap FlowNode) (c : Option FlowDocConfig)
    (s : BuildState) (id : String) (node : FlowNode)
    (hdep : depAbsent node.dependency = false)
    (hmiss : alHas m (node.dependency.getD "") = false) :
    (resolveDependency m c s id node).roots = s.roots ++ [id] ∧
    (resolveDependency m c s id node).childMap = s.childMap ∧
    (resolveDependency m c s id node).warnings =
      s.warnings ++
        (if isValidCrossRepo c (parseCrossRepoDependency (node.dependency.getD "")) = true
         then [] else [missingDependencyWarning id (node.dependency.getD "") node]) := by
  unfold resolveDependency
  split
  · next hc =>
    rw [hdep] at hc
    cases hc
  · dsimp only
    split
    · next hc =>
      rw [hmiss] at hc
      cases hc
    · split
      · exact ⟨rfl, rfl, by simp⟩
      · exact ⟨rfl, rfl, rfl⟩

/-- An entry with a truthy dependency that matches no local node ends up in
the root list of the phase-2 fold. -/
theorem resolveFold_est_root (m : JMap FlowNode) (c : Option FlowDocConfig) :
    ∀ (entries : List (String × FlowNode)) (s : BuildState) (e : String × FlowNode),
      e ∈ entries →
      depAbsent e.2.dependency = false →
      alHas m (e.2.dependency.getD "") = false →
      e.1 ∈ (entries.foldl (resolveNode m c) s).roots := by
  intro entries
  induction entries with
  | nil => intro s e h; cases h
  | cons a rest ih =>
    intro s e he hdep hmiss
    rw [List.foldl_cons]
    rcases List.mem_cons.mp he with rfl | hmem
    · refine (resolveFold_mono m c rest _ e.1).1 ?_
      show e.1 ∈ (resolveChildrenDecls m c (resolveDependency m c s e.1 e.2) e.1 e.2).roots
      rw [(resolveChildrenDecls_inv m c _ e.1 e.2).1]
      rw [(resolveDependency_unresolved m c s e.1 e.2 hdep hmiss).1]
      exact List.mem_append_right _ (List.mem_singleton.mpr rfl)
    · exact ih _ e hmem hdep hmiss

/-- The components of a returned graph are those of the phase-1–5 core. -/
theorem buildGraph_fields (nodes : List FlowNode) (topic : String)
    (config : Option FlowDocConfig) (errors : List GraphError) (g : TopicGraph)
    (h : buildGraph nodes topic config errors = some g) :
    g.nodesById = (buildGraphCore nodes topic config).1.nodesById ∧
    g.childrenByDependencyId = (buildGraphCore nodes topic config).1.childMap ∧
    g.roots = (buildGraphCore nodes topic config).1.roots := by
  unfold buildGraph at h
  dsimp only at h
  cases hrc : runCycleDetection (buildGraphCore nodes topic config).1.childMap
      (buildGraphCore nodes topic config).1.nodesById
      (buildGraphCore nodes topic config).2
      (buildGraphCore nodes topic config).1.roots with
  | none =>
    rw [hrc] at h
    cases h
  | some fw =>
    rw [hrc] at h
    cases h
    exact ⟨rfl, rfl, rfl⟩

/-- A node depending on `"toString@X"`: `"toString"` is not a configured
repository name, but the JS `in` check finds it on `Object.prototype`. -/
def protoDepNodes : List FlowNode := [mkNode "Z" (some "toString@X") none]

/-- C6 (amended): for every node whose truthy dependency string matches no
local node id in its topic, the node is in the root list of the returned
graph — identically whether or not the dependency is a recognized
cross-boundary reference — and the dependency-resolution step emits a
`missing-dependency` warning naming that node iff the dependency is not a
syntactically valid cross-boundary reference whose external name passes the
JS `in` check against the configured repos object, i.e. is an own key of the
configured repos or a property name inherited from `Object.prototype`.
(Unknown child references can additionally produce `missing-dependency`
warnings naming the same node, which is why the iff holds for the
dependency-resolution step, not for the whole warning list — see the
counterexample theorem.) The last conjunct exhibits the prototype-chain
quirk: a dependency on repository `"toString"`, never configured, produces
no warning at all. -/
theorem unresolved_dependency_root_and_warning :
    (∀ (m : JMap FlowNode) (c : Option FlowDocConfig) (s : BuildState)
        (id : String) (node : FlowNode),
      depAbsent node.dependency = false →
      alHas m (node.dependency.getD "") = false →
      (resolveDependency m c s id node).roots = s.roots ++ [id] ∧
      (resolveDependency m c s id node).warnings =
        s.warnings ++
          (if isValidCrossRepo c (parseCrossRepoDependency (node.dependency.getD "")) = true
           then [] else [missingDependencyWarning id (node.dependency.getD "") node])) ∧
    (∀ (nodes : List FlowNode) (topic : String) (config : Option FlowDocConfig)
        (errors : List GraphError) (g : TopicGraph) (id : String) (node : FlowNode),
      buildGraph nodes topic config errors = some g →
      alGet g.nodesById id = some node →
      depAbsent node.dependency = false →
      alHas g.nodesById (node.dependency.getD "") = false →
      id ∈ g.roots) ∧
    (buildGraph protoDepNodes "T" (some otherRepoConfig) []).map
      (fun g => (g.roots, g.warnings,
        isValidCrossRepo (some otherRepoConfig)
          (parseCrossRepoDependency "toString@X"))) =
      some (["Z"], [], true) := by
  refine ⟨?_, ?_, by decide⟩
  · intro m c s id node hdep hmiss
    obtain ⟨h1, _, h3⟩ := resolveDependency_unresolved m c s id node hdep hmiss
    exact ⟨h1, h3⟩
  · intro nodes topic config errors g id node h hget hdep hmiss
    obtain ⟨hn, hc, hr⟩ := buildGraph_fields nodes topic config errors g h
    rw [hn] at hget hmiss
    rw [hr]
    rw [show (buildGraphCore nodes topic config).1 =
        applyAutoNumericLinks
          { nodesById := (dedupeNodes (nodes.filter (fun n => n.topic == topic))).1
            childMap := ((dedupeNodes (nodes.filter (fun n => n.topic == topic))).1.foldl
              (resolveNode (dedupeNodes (nodes.filter (fun n => n.topic == topic))).1 config)
              { childMap := [], roots := []
                warnings := (dedupeNodes (nodes.filter (fun n => n.topic == topic))).2 }).childMap.map
                (fun e => (e.1, jsSortStrings e.2))
            roots := jsSortStrings ((dedupeNodes (nodes.filter (fun n => n.topic == topic))).1.foldl
              (resolveNode (dedupeNodes (nodes.filter (fun n => n.topic == topic))).1 config)
              { childMap := [], roots := []
                warnings := (dedupeNodes (nodes.filter (fun n => n.topic == topic))).2 }).roots }
      from rfl] at hget hmiss ⊢
    set m0 := (dedupeNodes (nodes.filter (fun n => n.topic == topic))).1 with hm0
    set s0 : LinkState :=
      { nodesById := m0
        childMap := (m0.foldl (resolveNode m0 config)
          { childMap := [], roots := []
            warnings := (dedupeNodes (nodes.filter (fun n => n.topic == topic))).2 }).childMap.map
            (fun e => (e.1, jsSortStrings e.2))
        roots := jsSortStrings (m0.foldl (resolveNode m0 config)
          { childMap := [], roots := []
            warnings := (dedupeNodes (nodes.filter (fun n => n.topic == topic))).2 }).roots }
      with hs0
    have hmiss0 : alHas m0 (node.dependency.getD "") = false := by
      have := (applyAutoNumericLinks_inv s0).1 (node.dependency.getD "")
      rw [hmiss] at this
      exact this.symm
    have hhas0 : alHas m0 id = true := by
      have := (applyAutoNumericLinks_inv s0).1 id
      rw [alHas_eq_isSome, hget] at this
      exact this.symm
    obtain ⟨a, ha⟩ : ∃ a, alGet m0 id = some a := by
      rw [alHas_eq_isSome] at hhas0
      exact Option.isSome_iff_exists.mp hhas0
    obtain ⟨b, hb, hrel⟩ := applyAutoNumericLinks_rel s0 id a ha
    obtain rfl : b = node := by
      rw [hget] at hb
      exact (Option.some.inj hb).symm
    have han : a = b := by
      rcases hrel with rfl | ⟨habs, pv, hpv, hbeq, hhaspv⟩
      · rfl
      · exfalso
        rw [hbeq] at hmiss0
        simp only [Option.getD_some] at hmiss0
        rw [hmiss0] at hhaspv
        cases hhaspv
    subst han
    have hroot2 := resolveFold_est_root m0 config m0
      { childMap := [], roots := []
        warnings := (dedupeNodes (nodes.filter (fun n => n.topic == topic))).2 }
      (id, a) (alGet_mem m0 id a ha) hdep hmiss0
    have hroot0 : id ∈ s0.roots := (mem_jsSortStrings id _).mpr hroot2
    exact ((applyAutoNumericLinks_frame s0 id a ha hdep).2.2).mpr hroot0

/-- A single node depending on the nonexistent `"GHOST"`. -/
def ghostDepNodes : List FlowNode := [mkNode "Y" (some "GHOST") none]

/-- The graph built from `ghostDepNodes` (used by the C6 witness). -/
def ghostGraph : TopicGraph :=
  (buildGraph ghostDepNodes "T" none []).getD
    { topic := "", nodesById := [], childrenByDependencyId := [], roots := []
      warnings := [], errors := [] }

/-- Witness for C6: the per-step description at a concrete unresolvable
dependency, and root membership of `"Y"` in the concrete returned graph. -/
theorem unresolved_dependency_root_and_warning_witness :
    ((resolveDependency ([] : JMap FlowNode) none
        { childMap := [], roots := [], warnings := [] } "Y"
        (mkNode "Y" (some "GHOST") none)).roots = [] ++ ["Y"] ∧
      (resolveDependency ([] : JMap FlowNode) none
        { childMap := [], roots := [], warnings := [] } "Y"
        (mkNode "Y" (some "GHOST") none)).warnings =
        [] ++
          (if isValidCrossRepo none (parseCrossRepoDependency
              ((mkNode "Y" (some "GHOST") none).dependency.getD "")) = true
           then []
           else [missingDependencyWarning "Y"
              ((mkNode "Y" (some "GHOST") none).dependency.getD "")
              (mkNode "Y" (some "GHOST") none)])) ∧
    "Y" ∈ ghostGraph.roots :=
  ⟨unresolved_dependency_root_and_warning.1 [] none
      { childMap := [], roots := [], warnings := [] } "Y"
      (mkNode "Y" (some "GHOST") none) (by decide) (by decide),
   unresolved_dependency_root_and_warning.2.1 ghostDepNodes "T" none [] ghostGraph "Y"
      (mkNode "Y" (some "GHOST") none) (by decide) (by decide) (by decide) (by decide)⟩

/-! ## C7: the frame condition on input records -/

theorem scontains_iff (l : List String) (x : String) :
    l.contains x = true ↔ x ∈ l := List.elem_iff

theorem find?_cons_true {α : Type} (p : α → Bool) (a : α) (l : List α)
    (h : p a = true) : (a :: l).find? p = some a := by
  simp [List.find?, h]

theorem find?_cons_false {α : Type} (p : α → Bool) (a : α) (l : List α)
    (h : p a = false) : (a :: l).find? p = l.find? p := by
  simp [List.find?, h]

theorem dedupeStep_fst (acc : JMap FlowNode × List GraphWarning) (n : FlowNode) :
    (dedupeStep acc n).1 =
      if alHas acc.1 n.id then acc.1 else acc.1 ++ [(n.id, n)] := by
  unfold dedupeStep
  by_cases hh : alHas acc.1 n.id
  · rw [if_pos hh, if_pos hh]
  · rw [if_neg hh, if_neg hh]

/-- The deduplicated map resolves each id to the first record carrying it. -/
theorem dedupe_alGet :
    ∀ (l : List FlowNode) (acc : JMap FlowNode × List GraphWarning) (x : String),
      alGet (l.foldl dedupeStep acc).1 x =
        (alGet acc.1 x).orElse (fun _ => l.find? (fun n => n.id == x)) := by
  intro l
  induction l with
  | nil =>
    intro acc x
    cases h : alGet acc.1 x <;> simp [Option.orElse, h]
  | cons n rest ih =>
    intro acc x
    rw [List.foldl_cons, ih, dedupeStep_fst]
    by_cases hh : alHas acc.1 n.id
    · rw [if_pos hh]
      cases hg : alGet acc.1 x with
      | some v => simp [Option.orElse, hg]
      | none =>
        have hnx : (n.id == x) = false := by
          cases hc : (n.id == x)
          · rfl
          · exfalso
            have hix : n.id = x := by simpa using hc
            rw [hix] at hh
            rw [alHas_eq_isSome, hg] at hh
            cases hh
        rw [find?_cons_false (fun n => n.id == x) n rest hnx]
    · rw [if_neg hh]
      cases hg : alGet acc.1 x with
      | some v =>
        have h1 : alGet (acc.1 ++ [(n.id, n)]) x = some v := by
          rw [alGet_append, hg]
          simp [Option.orElse]
        simp [Option.orElse, h1, hg]
      | none =>
        cases hnx : (n.id == x) with
        | true =>
          have h1 : alGet (acc.1 ++ [(n.id, n)]) x = some n := by
            rw [alGet_append, hg]
            simp [Option.orElse, alGet_cons, hnx]
          rw [find?_cons_true (fun n => n.id == x) n rest hnx]
          simp [Option.orElse, h1]
        | false =>
          have h1 : alGet (acc.1 ++ [(n.id, n)]) x = none := by
            rw [alGet_append, hg]
            simp [Option.orElse, alGet_cons, alGet_nil, hnx]
          rw [find?_cons_false (fun n => n.id == x) n rest hnx]
          simp [Option.orElse, h1, hg]

/-- How a record visible to the caller after the build may relate to the one
passed in: every field is unchanged except that an absent (null or empty)
dependency may have become a node id of the final node map. -/
def recordFrame (finalMap : JMap FlowNode) (r r' : FlowNode) : Prop :=
  r'.topic = r.topic ∧ r'.id = r.id ∧ r'.step = r.step ∧
  r'.dependencyNote = r.dependencyNote ∧ r'.children = r.children ∧
  r'.links = r.links ∧ r'.sourceFile = r.sourceFile ∧ r'.sourceLine = r.sourceLine ∧
  (r'.dependency = r.dependency ∨
    (depAbsent r.dependency = true ∧
      ∃ pv, r'.dependency = some pv ∧ alHas finalMap pv = true))

theorem recordsAfter_frame (m0 finalMap : JMap FlowNode) (topic : String)
    (HK : ∀ pv, alHas m0 pv = alHas finalMap pv)
    (HF : ∀ x a, alGet m0 x = some a →
      ∃ b, alGet finalMap x = some b ∧ depRel m0 a b) :
    ∀ (l : List FlowNode) (seen : List String),
      (∀ x, seen.contains x = false →
        alGet m0 x = (l.filter (fun n => n.topic == topic)).find? (fun n => n.id == x)) →
      List.Forall₂ (recordFrame finalMap) l (recordsAfter finalMap topic l seen) := by
  intro l
  induction l with
  | nil => exact fun seen _ => List.Forall₂.nil
  | cons r rest ih =>
    intro seen H
    unfold recordsAfter
    split
    · next hcond =>
      have hseen : seen.contains r.id = false := by
        cases hc : seen.contains r.id
        · rfl
        · exact absurd hc hcond.2
      have hfull := H r.id hseen
      have hfilt : (r :: rest).filter (fun n => n.topic == topic) =
          r :: rest.filter (fun n => n.topic == topic) := by
        rw [List.filter_cons, if_pos hcond.1]
      rw [hfilt, find?_cons_true (fun n => n.id == r.id) r _ (by simp)] at hfull
      obtain ⟨b, hb, hrel⟩ := HF r.id r hfull
      refine List.Forall₂.cons ?_ (ih (seen ++ [r.id]) ?_)
      · rw [hb]
        simp only [Option.getD_some]
        rcases hrel with rfl | ⟨habs, pv, hpv, hbeq, hhas⟩
        · exact ⟨rfl, rfl, rfl, rfl, rfl, rfl, rfl, rfl, Or.inl rfl⟩
        · rw [hbeq]
          exact ⟨rfl, rfl, rfl, rfl, rfl, rfl, rfl, rfl,
            Or.inr ⟨habs, pv, rfl, (HK pv) ▸ hhas⟩⟩
      · intro x hx
        have hxmem : ¬ x ∈ seen ++ [r.id] := by
          intro hm
          rw [(scontains_iff _ x).mpr hm] at hx
          cases hx
        have hx1 : seen.contains x = false := by
          cases hc : seen.contains x
          · rfl
          · exact absurd (List.mem_append_left _ ((scontains_iff seen x).mp hc)) hxmem
        have hx2 : x ≠ r.id := by
          intro he
          exact hxmem (List.mem_append_right _ (by rw [he]; exact List.mem_singleton.mpr rfl))
        have hres := H x hx1
        have hne : (r.id == x) = false := by
          cases hc : (r.id == x)
          · rfl
          · exact absurd (by simpa using hc : r.id = x).symm hx2
        rw [hfilt, find?_cons_false (fun n => n.id == x) r _ hne] at hres
        exact hres
    · next hcond =>
      refine List.Forall₂.cons
        ⟨rfl, rfl, rfl, rfl, rfl, rfl, rfl, rfl, Or.inl rfl⟩ (ih seen ?_)
      intro x hx
      have hres := H x hx
      rw [List.filter_cons] at hres
      by_cases ht : (r.topic == topic) = true
      · rw [if_pos ht] at hres
        have hcont : seen.contains r.id = true := by
          cases hc : seen.contains r.id
          · exact absurd ⟨ht, by rw [hc]; exact fun h => by cases h⟩ hcond
          · rfl
        have hne : (r.id == x) = false := by
          cases hc : (r.id == x)
          · rfl
          · exfalso
            have h1 : r.id = x := by simpa using hc
            rw [← h1, hcont] at hx
            cases hx
        rw [find?_cons_false (fun n => n.id == x) r _ hne] at hres
        exact hres
      · rw [if_neg ht] at hres
        exact hres

/-- C7 (amended): `buildGraph` leaves every field of every input record
unchanged, except that a record's absent dependency — null or the empty
string, both falsy in JS — may change to a node id of the final node map
during auto-linking; no other field is ever written, and a truthy dependency
is never overwritten. (The claim's "non-null" reading fails only on the
empty string — see the counterexample theorem.) -/
theorem buildGraphRecords_frame (nodes : List FlowNode) (topic : String)
    (config : Option FlowDocConfig) :
    List.Forall₂ (recordFrame (buildGraphNodes nodes topic config)) nodes
      (buildGraphRecords nodes topic config) := by
  unfold buildGraphRecords
  refine recordsAfter_frame (dedupeNodes (nodes.filter (fun n => n.topic == topic))).1
    (buildGraphNodes nodes topic config) topic ?_ ?_ nodes [] ?_
  · intro pv
    exact ((applyAutoNumericLinks_inv
      { nodesById := (dedupeNodes (nodes.filter (fun n => n.topic == topic))).1
        childMap := ((dedupeNodes (nodes.filter (fun n => n.topic == topic))).1.foldl
          (resolveNode (dedupeNodes (nodes.filter (fun n => n.topic == topic))).1 config)
          { childMap := [], roots := []
            warnings := (dedupeNodes (nodes.filter (fun n => n.topic == topic))).2 }).childMap.map
            (fun e => (e.1, jsSortStrings e.2))
        roots := jsSortStrings ((dedupeNodes (nodes.filter (fun n => n.topic == topic))).1.foldl
          (resolveNode (dedupeNodes (nodes.filter (fun n => n.topic == topic))).1 config)
          { childMap := [], roots := []
            warnings := (dedupeNodes (nodes.filter (fun n => n.topic == topic))).2 }).roots }).1 pv).symm
  · intro x a ha
    exact applyAutoNumericLinks_rel
      { nodesById := (dedupeNodes (nodes.filter (fun n => n.topic == topic))).1
        childMap := ((dedupeNodes (nodes.filter (fun n => n.topic == topic))).1.foldl
          (resolveNode (dedupeNodes (nodes.filter (fun n => n.topic == topic))).1 config)
          { childMap := [], roots := []
            warnings := (dedupeNodes (nodes.filter (fun n => n.topic == topic))).2 }).childMap.map
            (fun e => (e.1, jsSortStrings e.2))
        roots := jsSortStrings ((dedupeNodes (nodes.filter (fun n => n.topic == topic))).1.foldl
          (resolveNode (dedupeNodes (nodes.filter (fun n => n.topic == topic))).1 config)
          { childMap := [], roots := []
            warnings := (dedupeNodes (nodes.filter (fun n => n.topic == topic))).2 }).roots } x a ha
  · intro x _
    have h1 := dedupe_alGet (nodes.filter (fun n => n.topic == topic)) ([], []) x
    unfold dedupeNodes
    rw [h1]
    simp [Option.orElse, alGet_nil]

/-! ## C3: characterizing the numeric-suffix regex -/

/-- Length of the maximal trailing run of decimal digits. -/
def tRunDigits (cs : List Char) : Nat :=
  (cs.reverse.takeWhile jsDigit).length

theorem takeWhileLen_le {α : Type} (p : α → Bool) (l : List α) :
    (l.takeWhile p).length ≤ l.length := by
  induction l with
  | nil => exact Nat.le_refl 0
  | cons a t ih =>
    rw [List.takeWhile_cons]
    by_cases h : p a = true
    · rw [if_pos h]
      exact Nat.succ_le_succ ih
    · rw [if_neg h]
      exact Nat.zero_le _

theorem takeWhile_eq_self {α : Type} (p : α → Bool) (l : List α)
    (h : l.all p = true) : l.takeWhile p = l := by
  induction l with
  | nil => rfl
  | cons a t ih =>
    rw [List.all_cons, Bool.and_eq_true] at h
    rw [List.takeWhile_cons, if_pos h.1, ih h.2]

theorem takeWhile_append_all {α : Type} (p : α → Bool) (l1 l2 : List α)
    (h : l1.all p = true) : (l1 ++ l2).takeWhile p = l1 ++ l2.takeWhile p := by
  induction l1 with
  | nil => rfl
  | cons a t ih =>
    rw [List.all_cons, Bool.and_eq_true] at h
    rw [List.cons_append, List.takeWhile_cons, if_pos h.1, ih h.2, List.cons_append]

theorem takeWhile_append_nall {α : Type} (p : α → Bool) (l1 l2 : List α)
    (h : l1.all p = false) : (l1 ++ l2).takeWhile p = l1.takeWhile p := by
  induction l1 with
  | nil => cases h
  | cons a t ih =>
    rw [List.all_cons] at h
    rw [List.cons_append, List.takeWhile_cons, List.takeWhile_cons]
    by_cases ha : p a = true
    · rw [ha, Bool.true_and] at h
      rw [if_pos ha, if_pos ha, ih h]
    · rw [if_neg ha, if_neg ha]

theorem tRun_le (cs : List Char) : tRunDigits cs ≤ cs.length := by
  unfold tRunDigits
  calc (cs.reverse.takeWhile jsDigit).length ≤ cs.reverse.length :=
        takeWhileLen_le jsDigit cs.reverse
    _ = cs.length := List.length_reverse cs

theorem tRun_all (cs : List Char) (h : cs.all jsDigit = true) :
    tRunDigits cs = cs.length := by
  unfold tRunDigits
  rw [takeWhile_eq_self jsDigit cs.reverse (by rwa [List.all_reverse]),
    List.length_reverse]

theorem tRun_cons (c : Char) (cs : List Char) :
    tRunDigits (c :: cs) =
      if cs.all jsDigit && jsDigit c then cs.length + 1 else tRunDigits cs := by
  unfold tRunDigits
  rw [List.reverse_cons]
  by_cases hall : cs.all jsDigit = true
  · have hrev : cs.reverse.all jsDigit = true := by rwa [List.all_reverse]
    rw [takeWhile_append_all jsDigit cs.reverse [c] hrev]
    by_cases hc : jsDigit c = true
    · rw [hall, hc]
      simp [List.takeWhile_cons, hc]
    · have hcf : jsDigit c = false := by
        cases hcc : jsDigit c
        · rfl
        · exact absurd hcc hc
      rw [hall, hcf]
      simp [List.takeWhile_cons, hcf, takeWhile_eq_self jsDigit cs.reverse hrev]
  · have hrev : cs.reverse.all jsDigit = false := by
      cases hc : cs.reverse.all jsDigit
      · rfl
      · rw [List.all_reverse] at hc
        exact absurd hc hall
    rw [takeWhile_append_nall jsDigit cs.reverse [c] hrev]
    have hf : cs.all jsDigit = false := by
      cases hc : cs.all jsDigit
      · rfl
      · exact absurd hc hall
    rw [hf, Bool.false_and, if_neg (by simp)]

theorem digit_dot (c : Char) (h : jsDigit c = true) : jsDotMatch c = true := by
  unfold jsDigit at h
  unfold jsDotMatch
  rw [Bool.and_eq_true, decide_eq_true_eq, decide_eq_true_eq] at h
  simp only [Bool.and_eq_true, decide_eq_true_eq, ne_eq]
  obtain ⟨h1, h2⟩ := h
  refine ⟨⟨⟨?_, ?_⟩, ?_⟩, ?_⟩ <;>
    · intro he
      subst he
      revert h1 h2
      decide

theorem append_singleton_isEmpty {α : Type} (l : List α) (a : α) :
    (l ++ [a]).isEmpty = false := by
  cases l <;> rfl

/-- Closed-form description of one lazy search of `/^(.+?)(\d+)$/` starting
from an already-consumed prefix `pre`: the digits group is the maximal
trailing digit run of `rest` (shortened by one from the left when the lazy
group would otherwise be empty), and the whole match succeeds iff that run
is non-empty, a non-empty lazy group remains, and every consumed character
is `.`-matchable. -/
def lazySpec (pre rest : List Char) : Option (List Char × List Char) :=
  if tRunDigits rest = 0 then none
  else
    let n := rest.length
    let j := if pre.isEmpty ∧ n - tRunDigits rest = 0 then 1 else n - tRunDigits rest
    if j < n then
      if (pre ++ rest.take j).all jsDotMatch then
        some (pre ++ rest.take j, rest.drop j)
      else none
    else none

theorem lazySpec_t0 (pre rest : List Char) (h : tRunDigits rest = 0) :
    lazySpec pre rest = none := by
  unfold lazySpec
  rw [if_pos h]

theorem lazySpec_of_big (pre rest : List Char) (h : ¬ tRunDigits rest = 0)
    (hge : ¬ (if pre.isEmpty = true ∧ rest.length - tRunDigits rest = 0 then 1
      else rest.length - tRunDigits rest) < rest.length) :
    lazySpec pre rest = none := by
  unfold lazySpec
  rw [if_neg h]
  dsimp only
  rw [if_neg hge]

theorem lazySpec_of_dot_fail (pre rest : List Char) (j : Nat)
    (h : ¬ tRunDigits rest = 0)
    (hj : (if pre.isEmpty = true ∧ rest.length - tRunDigits rest = 0 then 1
      else rest.length - tRunDigits rest) = j)
    (hlt : j < rest.length)
    (hdot : (pre ++ rest.take j).all jsDotMatch = false) :
    lazySpec pre rest = none := by
  unfold lazySpec
  rw [if_neg h]
  dsimp only
  rw [hj, if_pos hlt, if_neg (by rw [hdot]; exact Bool.false_ne_true)]

theorem lazySpec_some (pre rest : List Char) (j : Nat)
    (h : ¬ tRunDigits rest = 0)
    (hj : (if pre.isEmpty = true ∧ rest.length - tRunDigits rest = 0 then 1
      else rest.length - tRunDigits rest) = j)
    (hlt : j < rest.length)
    (hdot : (pre ++ rest.take j).all jsDotMatch = true) :
    lazySpec pre rest = some (pre ++ rest.take j, rest.drop j) := by
  unfold lazySpec
  rw [if_neg h]
  dsimp only
  rw [hj, if_pos hlt, if_pos hdot]

theorem regexLazySearch_eq_spec :
    ∀ (rest pre : List Char), regexLazySearch pre rest = lazySpec pre rest := by
  intro rest
  induction rest with
  | nil => intro pre; rfl
  | cons c cs ih =>
    intro pre
    rw [show regexLazySearch pre (c :: cs) =
        (if !pre.isEmpty && (c :: cs).all jsDigit && pre.all jsDotMatch then
          some (pre, c :: cs)
        else regexLazySearch (pre ++ [c]) cs) from rfl, ih]
    by_cases hall : (c :: cs).all jsDigit = true
    · have hcc := hall
      rw [List.all_cons, Bool.and_eq_true] at hcc
      obtain ⟨hcd, hcsall⟩ := hcc
      have hTc : tRunDigits (c :: cs) = cs.length + 1 := by
        rw [tRun_cons, if_pos (by rw [hcsall, hcd]; rfl)]
      by_cases hpre : pre.isEmpty = true
      · have hpe : pre = [] := by
          cases pre with
          | nil => rfl
          | cons a b => cases hpre
        subst hpe
        rw [if_neg (by simp)]
        rw [List.nil_append]
        cases cs with
        | nil =>
          have ht1 : tRunDigits [c] = 1 := by
            unfold tRunDigits
            simp [List.takeWhile_cons, hcd]
          rw [lazySpec_t0 [c] [] rfl]
          rw [lazySpec_of_big [] [c] (by rw [ht1]; omega) (by rw [ht1]; simp)]
        | cons c2 cs2 =>
          rw [lazySpec_some [c] (c2 :: cs2) 0
            (by rw [tRun_all _ hcsall]; simp)
            (by rw [tRun_all _ hcsall]; simp)
            (by simp)
            (by simp [digit_dot c hcd])]
          rw [lazySpec_some [] (c :: c2 :: cs2) 1
            (by rw [hTc]; omega)
            (by rw [hTc]; simp)
            (by simp)
            (by simp [digit_dot c hcd])]
          simp
      · have hprf : pre.isEmpty = false := by
          cases hpp : pre.isEmpty
          · rfl
          · exact absurd hpp hpre
        by_cases hdot : pre.all jsDotMatch = true
        · rw [if_pos (by rw [hprf, hall, hdot]; rfl)]
          rw [lazySpec_some pre (c :: cs) 0
            (by rw [hTc]; omega)
            (by rw [hTc, hprf]; simp)
            (by simp)
            (by simpa using hdot)]
          simp
        · have hdf : pre.all jsDotMatch = false := by
            cases hdd : pre.all jsDotMatch
            · rfl
            · exact absurd hdd hdot
          rw [if_neg (by rw [hdf]; simp)]
          rw [lazySpec_of_dot_fail pre (c :: cs) 0
            (by rw [hTc]; omega)
            (by rw [hTc, hprf]; simp)
            (by simp)
            (by simp [hdf])]
          cases cs with
          | nil => exact lazySpec_t0 (pre ++ [c]) [] rfl
          | cons c2 cs2 =>
            refine lazySpec_of_dot_fail (pre ++ [c]) (c2 :: cs2) 0 ?_ ?_ ?_ ?_
            · rw [tRun_all _ hcsall]
              simp
            · rw [tRun_all _ hcsall]
              simp [append_singleton_isEmpty]
            · simp
            · simp [List.all_append, hdf]
    · have hanf : (c :: cs).all jsDigit = false := by
        cases hq : (c :: cs).all jsDigit
        · rfl
        · exact absurd hq hall
      rw [if_neg (by rw [hanf]; simp)]
      have hT : tRunDigits (c :: cs) = tRunDigits cs := by
        rw [tRun_cons, if_neg ?hc]
        case hc =>
          intro hb
          rw [Bool.and_eq_true] at hb
          rw [List.all_cons, hb.1, hb.2] at hanf
          cases hanf
      by_cases ht0 : tRunDigits cs = 0
      · rw [lazySpec_t0 (pre ++ [c]) cs ht0,
          lazySpec_t0 pre (c :: cs) (by rw [hT]; exact ht0)]
      · have htle := tRun_le cs
        have hjR : (if pre.isEmpty = true ∧
              (c :: cs).length - tRunDigits (c :: cs) = 0 then 1
            else (c :: cs).length - tRunDigits (c :: cs)) =
            (cs.length - tRunDigits cs) + 1 := by
          rw [hT, List.length_cons]
          rw [if_neg (by
            rintro ⟨_, h0⟩
            omega)]
          omega
        have hjL : (if (pre ++ [c]).isEmpty = true ∧
              cs.length - tRunDigits cs = 0 then 1
            else cs.length - tRunDigits cs) = cs.length - tRunDigits cs := by
          rw [if_neg (by
            rintro ⟨h1, _⟩
            rw [append_singleton_isEmpty] at h1
            cases h1)]
        have htake : pre ++ (c :: cs).take ((cs.length - tRunDigits cs) + 1) =
            (pre ++ [c]) ++ cs.take (cs.length - tRunDigits cs) := by
          rw [List.take_succ_cons, List.append_cons]
        have hdrop : (c :: cs).drop ((cs.length - tRunDigits cs) + 1) =
            cs.drop (cs.length - tRunDigits cs) := List.drop_succ_cons
        have hltL : cs.length - tRunDigits cs < cs.length := by omega
        have hltR : (cs.length - tRunDigits cs) + 1 < (c :: cs).length := by
          rw [List.length_cons]
          omega
        by_cases hdot :
            ((pre ++ [c]) ++ cs.take (cs.length - tRunDigits cs)).all jsDotMatch = true
        · rw [lazySpec_some (pre ++ [c]) cs (cs.length - tRunDigits cs) ht0 hjL hltL hdot]
          rw [lazySpec_some pre (c :: cs) ((cs.length - tRunDigits cs) + 1)
            (by rw [hT]; exact ht0) hjR hltR (by rw [htake]; exact hdot)]
          rw [htake, hdrop]
        · have hdf :
              ((pre ++ [c]) ++ cs.take (cs.length - tRunDigits cs)).all jsDotMatch = false := by
            cases hdd : ((pre ++ [c]) ++ cs.take (cs.length - tRunDigits cs)).all jsDotMatch
            · rfl
            · exact absurd hdd hdot
          rw [lazySpec_of_dot_fail (pre ++ [c]) cs (cs.length - tRunDigits cs)
            ht0 hjL hltL hdf]
          rw [lazySpec_of_dot_fail pre (c :: cs) ((cs.length - tRunDigits cs) + 1)
            (by rw [hT]; exact ht0) hjR hltR (by rw [htake]; exact hdf)]

/-- The amended numeric-identity rule: an id has a numeric identity exactly
when it is at least two characters long, ends in a decimal digit, and every
character of its prefix part is `.`-matchable; the prefix is the longest
non-digit-terminated leading substring except that it is never empty (for an
all-digit id it is the first digit), and the value is the integer parse of
the remaining trailing digit run. -/
def numericIdTrailingForm (id : String) : Option NumericId :=
  let cs := id.data
  let t := tRunDigits cs
  if t = 0 ∨ cs.length ≤ 1 then none
  else
    let j := max (cs.length - t) 1
    if (cs.take j).all jsDotMatch then
      some { pfx := String.mk (cs.take j), numericValue := digitsToNat (cs.drop j)
             originalSuffix := String.mk (cs.drop j) }
    else none

theorem parseNumericId_eq_trailingForm (id : String) :
    parseNumericId id = numericIdTrailingForm id := by
  unfold parseNumericId numericIdTrailingForm
  rw [regexLazySearch_eq_spec id.data []]
  by_cases ht : tRunDigits id.data = 0
  · rw [lazySpec_t0 [] id.data ht]
    dsimp only
    rw [if_pos (Or.inl ht)]
  · by_cases hn : id.data.length ≤ 1
    · have htle := tRun_le id.data
      have ht1 : tRunDigits id.data = 1 := by omega
      have h1 : id.data.length = 1 := by omega
      rw [lazySpec_of_big [] id.data ht (by simp [h1, ht1])]
      dsimp only
      rw [if_pos (Or.inr hn)]
    · have htle := tRun_le id.data
      have hjeq : (if List.isEmpty ([] : List Char) = true ∧
            id.data.length - tRunDigits id.data = 0 then 1
          else id.data.length - tRunDigits id.data) =
          max (id.data.length - tRunDigits id.data) 1 := by
        by_cases h0 : id.data.length - tRunDigits id.data = 0
        · rw [if_pos ⟨rfl, h0⟩, h0]
          decide
        · rw [if_neg (by rintro ⟨_, hq⟩; exact h0 hq)]
          omega
      have hlt : max (id.data.length - tRunDigits id.data) 1 < id.data.length := by
        by_cases h0 : id.data.length - tRunDigits id.data = 0
        · rw [h0, show (0 : Nat) ⊔ 1 = 1 from by decide]
          omega
        · rw [Nat.max_eq_left (by omega)]
          omega
      by_cases hdot :
          (id.data.take (max (id.data.length - tRunDigits id.data) 1)).all jsDotMatch = true
      · rw [lazySpec_some [] id.data (max (id.data.length - tRunDigits id.data) 1)
          ht hjeq hlt (by simpa using hdot)]
        dsimp only
        rw [if_neg (by
          rintro (h | h)
          · exact ht h
          · exact hn h)]
        rw [if_pos hdot]
        simp
      · have hdf : (id.data.take
            (max (id.data.length - tRunDigits id.data) 1)).all jsDotMatch = false := by
          cases hdd : (id.data.take
              (max (id.data.length - tRunDigits id.data) 1)).all jsDotMatch
          · rfl
          · exact absurd hdd hdot
        rw [lazySpec_of_dot_fail [] id.data (max (id.data.length - tRunDigits id.data) 1)
          ht hjeq hlt (by simpa using hdf)]
        dsimp only
        rw [if_neg (by
          rintro (h | h)
          · exact ht h
          · exact hn h)]
        rw [if_neg (by rw [hdf]; exact Bool.false_ne_true)]

/-- C3 (amended): `parseNumericId` gives an id a numeric identity exactly
when the id is at least two characters long, ends in a decimal digit, and
its prefix part is `.`-matchable; the prefix is the longest
non-digit-terminated leading substring except that it is never empty (an
all-digit id takes its first digit as prefix), and the value is the integer
parse of the remaining trailing digit run, with leading zeros insignificant:
`"001"` and `"01"` both denote value 1 under prefix `"0"`, while `"1"` has no
numeric identity and is excluded from auto-linking. -/
theorem parseNumericId_trailing_characterization :
    (∀ id, parseNumericId id = numericIdTrailingForm id) ∧
    parseNumericId "001" =
      some { pfx := "0", numericValue := 1, originalSuffix := "01" } ∧
    parseNumericId "01" =
      some { pfx := "0", numericValue := 1, originalSuffix := "1" } :=
  ⟨parseNumericId_eq_trailingForm, by decide, by decide⟩
